import Mathlib

/-!
Verification of the semantic-versioning engine bundled in
`cache/gen/.../deno_std@1.150.0/fs/walk.ts.js` (lines 143-1246 of that file,
the `semver` module of deno_std, ported from node-semver).

The JavaScript is shallowly embedded: JS numbers on the integer-valued paths
of this module are modelled as exact `Nat`s (every value the module produces
on its numeric fields is an integer; the `> MAX_SAFE_INTEGER` guards are kept
explicitly), JS strings are modelled as `String`/`List Char` (all grammar
characters are ASCII, where JS UTF-16 order and code-point order agree),
`null`/`undefined` become `Option`, and thrown exceptions become
`Except JsErr`.  Entry points that the source wraps in `try`/`catch` are
total; everything a caller can crash is in `Except`.

The regular-expression grammar of the source is embedded as recursive-descent
parsers over `List Char`.  Every regex of the module is anchored and, against
its continuations inside the anchored patterns, maximal-munch is equivalent to
the backtracking semantics (identifiers are maximal runs of `[0-9A-Za-z-]`,
always followed by a delimiter outside that class), which the parsers exploit.
-/

set_option linter.unusedVariables false
set_option maxRecDepth 10000
set_option linter.unreachableTactic false
set_option linter.unusedTactic false

namespace DenoSemVer

/-- A thrown JavaScript exception.  `nullDeref` is the runtime `TypeError`
raised by a property access on `null`, kept distinct from exceptions the
source throws deliberately. -/
inductive JsErr where
  | typeError (msg : String)
  | genError (msg : String)
  | nullDeref (msg : String)
deriving DecidableEq, Repr

instance {ε α : Type} [DecidableEq ε] [DecidableEq α] : DecidableEq (Except ε α) := fun a b =>
  match a, b with
  | .ok x, .ok y =>
    if h : x = y then .isTrue (by subst h; rfl)
    else .isFalse (fun hh => h (by cases hh; rfl))
  | .error x, .error y =>
    if h : x = y then .isTrue (by subst h; rfl)
    else .isFalse (fun hh => h (by cases hh; rfl))
  | .ok _, .error _ => .isFalse (fun hh => by cases hh)
  | .error _, .ok _ => .isFalse (fun hh => by cases hh)

/-- `Number.MAX_SAFE_INTEGER` -/
def MAX_SAFE_INTEGER : Nat := 9007199254740991

/-- `MAX_LENGTH` from the source: version strings longer than this are rejected. -/
def MAX_LENGTH : Nat := 256

def isDigitC (c : Char) : Bool := 48 ≤ c.toNat && c.toNat ≤ 57

def isAlphaC (c : Char) : Bool :=
  (65 ≤ c.toNat && c.toNat ≤ 90) || (97 ≤ c.toNat && c.toNat ≤ 122)

/-- A character of the identifier class `[0-9A-Za-z-]`. -/
def isIdChar (c : Char) : Bool := isDigitC c || isAlphaC c || c = '-'

/-- JS `\s` restricted to the ASCII range (space, tab, LF, VT, FF, CR). -/
def isWsC (c : Char) : Bool := c = ' ' || (9 ≤ c.toNat && c.toNat ≤ 13)

/-- Numeric value of a digit list, most significant first (JS `+"123"` on an
all-digit string, exact-integer model). -/
def toNatDigits (cs : List Char) : Nat :=
  cs.foldl (fun a c => a * 10 + (c.toNat - 48)) 0

/-- Decimal digits of `n`, fuel-driven so that it reduces in the kernel. -/
def natReprAux : Nat → Nat → List Char → List Char
  | 0, _, acc => acc
  | fuel + 1, n, acc =>
    let d := Char.ofNat (48 + n % 10)
    if n < 10 then d :: acc else natReprAux fuel (n / 10) (d :: acc)

/-- Decimal rendering of a natural number (JS number-to-string on integers). -/
def natRepr (n : Nat) : List Char := natReprAux (n + 1) n []

def natReprS (n : Nat) : String := ⟨natRepr n⟩

/-- Fuel-driven floor base-2 logarithm: `natLog2 v = e` with
`2 ^ e ≤ v < 2 ^ (e + 1)` for `v ≥ 1`. -/
def natLog2F : Nat → Nat → Nat
  | 0, _ => 0
  | fuel + 1, v => if v < 2 then 0 else natLog2F fuel (v / 2) + 1

def natLog2 (v : Nat) : Nat := natLog2F v v

/-- Round a natural number to the nearest IEEE-754 binary64 value (round to
nearest, ties to even), as the JS unary `+` does on an all-digit string:
`some w` is the double (always integral in this range), `none` is
`Infinity`.  Below `2^53` every natural is exact; above, the value is
rounded to the nearest multiple of `2^(e-52)` where `2^e ≤ v < 2^(e+1)`,
and a result at or beyond `2^1024` overflows. -/
def jsRound (v : Nat) : Option Nat :=
  if v < 2 ^ 53 then some v
  else
    let e := natLog2 v
    let u := 2 ^ (e - 52)
    let q := v / u
    let r := v % u
    let w :=
      if 2 * r < u then q * u
      else if u < 2 * r then (q + 1) * u
      else if q % 2 = 0 then q * u else (q + 1) * u
    if w < 2 ^ 1024 then some w else none

/-- JS `===` on two coerced numbers (`none` is `Infinity`; note
`Infinity === Infinity`). -/
def jsNumEq : Option Nat → Option Nat → Bool
  | none, none => true
  | some a, some b => a == b
  | _, _ => false

/-- JS `<` on two coerced numbers (`none` is `Infinity`). -/
def jsNumLt : Option Nat → Option Nat → Bool
  | none, _ => false
  | some _, none => true
  | some a, some b => a < b

/-- Fuel-driven count of decimal digits. -/
def numDigitsF : Nat → Nat → Nat
  | 0, _ => 1
  | fuel + 1, v => if v < 10 then 1 else numDigitsF fuel (v / 10) + 1

def numDigits (v : Nat) : Nat := numDigitsF v v

/-- Fuel-driven stripping of trailing decimal zeros. -/
def stripTenF : Nat → Nat → Nat
  | 0, v => v
  | fuel + 1, v => if v % 10 = 0 && 0 < v then stripTenF fuel (v / 10) else v

def stripTen (v : Nat) : Nat := stripTenF v v

/-- The digit search of ECMA-262 `Number::toString` (radix 10) on an
integral double `m` of `D` decimal digits: the least `k ≥ 1` admitting a
value `s * 10 ^ (n - k)` (with `s` of `k` digits) that rounds to `m`; only
the two multiples of `10^(D-k)` nearest to `m` can be nearest candidates,
the closer one wins and a tie goes to the even digits.  Returns the chosen
candidate value (the multiple itself; a carry into `10^D` is the same
value re-expressed with `n = D + 1`). -/
def jsDigitsGo (m D : Nat) : Nat → Nat → Option Nat
  | 0, _ => none
  | fuel + 1, k =>
    let base := 10 ^ (D - k)
    let q := m / base
    let r := m % base
    let okq := decide (jsRound (q * base) = some m)
    let okq1 := decide (jsRound ((q + 1) * base) = some m)
    if okq && okq1 then
      if 2 * r < base then some (q * base)
      else if base < 2 * r then some ((q + 1) * base)
      else if stripTen (q * base) % 2 = 0 then some (q * base)
      else some ((q + 1) * base)
    else if okq then some (q * base)
    else if okq1 then some ((q + 1) * base)
    else jsDigitsGo m D fuel (k + 1)

/-- ECMA-262 `Number::toString` (radix 10) on an integral double `m`.
Below `2^53` the only value rounding to `m` is `m` itself, so the digits
are exactly the decimal digits of `m` (the branch is a shortcut, not a
deviation); otherwise the shortest round-tripping digit value is printed
in plain decimal up to 21 positions and in exponential notation beyond. -/
def jsIntToStr (m : Nat) : List Char :=
  if m < 2 ^ 53 then natRepr m
  else
    match jsDigitsGo m (numDigits m) (numDigits m) 1 with
    | none => natRepr m
    | some v =>
      if numDigits v ≤ 21 then natRepr v
      else
        if numDigits (stripTen v) = 1 then
          natRepr (stripTen v) ++ 'e' :: '+' :: natRepr (numDigits v - 1)
        else
          (natRepr (stripTen v)).take 1 ++ '.' :: (natRepr (stripTen v)).drop 1 ++
            'e' :: '+' :: natRepr (numDigits v - 1)

/-- JS `String(x)` on the coerced-number results of the range rewrites
(`none` is `Infinity`). -/
def jsNumToStr : Option Nat → List Char
  | none => "Infinity".data
  | some m => jsIntToStr m

/-- Double increment: `Infinity + 1` is `Infinity`; otherwise the exact sum
rounded back to a double. -/
def jsOptSucc : Option Nat → Option Nat
  | none => none
  | some w => jsRound (w + 1)

/-- JS `String(+X + 1)` on a digit run of value `v`: coerce (round), add
one in double arithmetic, render. -/
def jsSuccStr (v : Nat) : List Char := jsNumToStr (jsOptSucc (jsRound v))

/-- One prerelease identifier as stored by the `SemVer` constructor: an
all-digit identifier whose value is `< MAX_SAFE_INTEGER` is "numberified",
anything else stays a string. -/
inductive PreId where
  | num (n : Nat)
  | str (s : String)
deriving DecidableEq, Repr

/-- `/^[0-9]+$/` of the source (`numeric`). -/
def isNumericStr (s : String) : Bool := !s.data.isEmpty && s.data.all isDigitC

def preIdIsNum : PreId → Bool
  | .num _ => true
  | .str s => isNumericStr s

def preIdVal : PreId → Nat
  | .num n => n
  | .str s => toNatDigits s.data

/-- JS `<` on two strings: code-unit lexicographic (code-point on ASCII). -/
def strLtB : List Char → List Char → Bool
  | [], [] => false
  | [], _ :: _ => true
  | _ :: _, [] => false
  | c :: cs, d :: ds => if c = d then strLtB cs ds else decide (c < d)

/-- JS `<` applied to the two identifiers in the final branch of
`compareIdentifiers` (only ever reached with two non-numeric strings). -/
def preIdLt : PreId → PreId → Bool
  | .str s, .str t => strLtB s.data t.data
  | _, _ => false

/-- `compareIdentifiers` of the source.  When both identifiers pass the
`numeric` test they are coerced to numbers first — the unary `+` rounds the
value to a double (`jsRound`), so all-digit strings at or above
`MAX_SAFE_INTEGER` are compared by their rounded values (distinct ones can
compare equal); the subsequent `===`/`<` compare the coerced values.
Without coercion `===` is ordinary strict equality (a number is never
`===` a string). -/
def compareIdentifiers (a b : PreId) : Int :=
  if preIdIsNum a && preIdIsNum b then
    if jsNumEq (jsRound (preIdVal a)) (jsRound (preIdVal b)) then 0
    else if jsNumLt (jsRound (preIdVal a)) (jsRound (preIdVal b)) then -1 else 1
  else if a = b then 0
  else if preIdIsNum a && !preIdIsNum b then -1
  else if preIdIsNum b && !preIdIsNum a then 1
  else if preIdLt a b then -1 else 1

/-- The parsed version value object.  The cached `raw`/`version` strings of
the source are recomputed on demand by `formatSemVer` instead of being
stored. -/
structure SemVer where
  major : Nat
  minor : Nat
  patch : Nat
  prerelease : List PreId
  build : List String
deriving DecidableEq, Repr

/-- JS `x || y` on two integer comparison results (`0` is falsy). -/
def jsOrInt (x y : Int) : Int := if x = 0 then y else x

/-- `compareMain`: the source calls `compareIdentifiers` on the numeric
fields. -/
def compareMain (a b : SemVer) : Int :=
  jsOrInt (compareIdentifiers (.num a.major) (.num b.major))
    (jsOrInt (compareIdentifiers (.num a.minor) (.num b.minor))
      (compareIdentifiers (.num a.patch) (.num b.patch)))

/-- The identifier loop of `comparePre`: `a === b` continues, exhaustion of
one side decides, otherwise `compareIdentifiers` decides. -/
def comparePreLoop : List PreId → List PreId → Int
  | [], [] => 0
  | _ :: _, [] => 1
  | [], _ :: _ => -1
  | a :: as, b :: bs => if a = b then comparePreLoop as bs else compareIdentifiers a b

/-- `comparePre` of the source. -/
def comparePre (a b : SemVer) : Int :=
  if !a.prerelease.isEmpty && b.prerelease.isEmpty then -1
  else if a.prerelease.isEmpty && !b.prerelease.isEmpty then 1
  else if a.prerelease.isEmpty && b.prerelease.isEmpty then 0
  else comparePreLoop a.prerelease b.prerelease

/-- `SemVer.compare`: `compareMain(other) || comparePre(other)`. -/
def compareSemVer (a b : SemVer) : Int :=
  jsOrInt (compareMain a b) (comparePre a b)

def preIdChars : PreId → List Char
  | .num n => natRepr n
  | .str s => s.data

def joinDot : List (List Char) → List Char
  | [] => []
  | [x] => x
  | x :: xs => x ++ '.' :: joinDot xs

/-- `format()`: `major.minor.patch` plus `-` and the dot-joined prerelease
when the prerelease list is non-empty; build metadata never appears. -/
def formatSemVer (v : SemVer) : String :=
  ⟨natRepr v.major ++ '.' :: natRepr v.minor ++ '.' :: natRepr v.patch ++
    (if v.prerelease.isEmpty then [] else '-' :: joinDot (v.prerelease.map preIdChars))⟩

/-! ## Version grammar (the `re[FULL]` pattern as a recursive-descent parser) -/

/-- A run matching the numeric-identifier pattern `0|[1-9]\d*`: the runs this
is applied to are all-digit, so only non-emptiness and the no-leading-zero
rule remain. -/
def validNumRun : List Char → Bool
  | [] => false
  | ['0'] => true
  | c :: _ => c ≠ '0'

/-- Parse a numeric identifier as a maximal digit run. -/
def parseNumId (cs : List Char) : Option (List Char × List Char) :=
  let d := cs.takeWhile isDigitC
  if validNumRun d then some (d, cs.dropWhile isDigitC) else none

/-- Parse an x-range identifier: `0|[1-9]\d*|x|X|\*`. -/
def parseXId (cs : List Char) : Option (List Char × List Char) :=
  match cs with
  | [] => none
  | c :: rest =>
    if c = 'x' || c = 'X' || c = '*' then some ([c], rest)
    else parseNumId cs

/-- Parse one prerelease identifier: a maximal run of `[0-9A-Za-z-]` that is
either a numeric identifier (no leading zero) or contains a non-digit. -/
def parsePreId (cs : List Char) : Option (List Char × List Char) :=
  let r := cs.takeWhile isIdChar
  if r.isEmpty then none
  else if r.all isDigitC && !validNumRun r then none
  else some (r, cs.dropWhile isIdChar)

/-- Parse one build identifier: any non-empty run of `[0-9A-Za-z-]`. -/
def parseBuildId (cs : List Char) : Option (List Char × List Char) :=
  let r := cs.takeWhile isIdChar
  if r.isEmpty then none else some (r, cs.dropWhile isIdChar)

/-- The `(?:\.ident)*` loop: keep consuming `.ident`; stop (leaving the rest,
including the dot, unconsumed) as soon as the pattern fails.  Fuelled by the
length of the remaining input so that it reduces in the kernel. -/
def dottedLoop (pid : List Char → Option (List Char × List Char)) :
    Nat → List (List Char) → List Char → List (List Char) × List Char
  | 0, acc, rest => (acc.reverse, rest)
  | fuel + 1, acc, rest =>
    match rest with
    | '.' :: r =>
      match pid r with
      | some (id, r2) => dottedLoop pid fuel (id :: acc) r2
      | none => (acc.reverse, rest)
    | _ => (acc.reverse, rest)

/-- `ident(\.ident)*`. -/
def parseDotted (pid : List Char → Option (List Char × List Char))
    (cs : List Char) : Option (List (List Char) × List Char) :=
  match pid cs with
  | none => none
  | some (id, rest) =>
    let p := dottedLoop pid rest.length [id] rest
    some (p.1, p.2)

/-- Captured pieces of `FULLPLAIN`: `v?MAJOR.MINOR.PATCH(-pre(.pre)*)?(+b(.b)*)?`.
An absent prerelease or build section is the empty list (as in the source,
where `!m[4]` yields `[]`). -/
structure FullParts where
  major : List Char
  minor : List Char
  patch : List Char
  pre : List (List Char)
  build : List (List Char)
deriving DecidableEq, Repr

/-- Recursive-descent parse of `FULLPLAIN`.  The optional prerelease/build
groups are skipped (their leading `-`/`+` left unconsumed) when their body
fails, matching the regex's optional-group semantics. -/
def parseFullPlain (cs : List Char) : Option (FullParts × List Char) :=
  let cs1 := match cs with | 'v' :: r => r | _ => cs
  match parseNumId cs1 with
  | none => none
  | some (mj, r1) =>
    match r1 with
    | '.' :: r2 =>
      match parseNumId r2 with
      | none => none
      | some (mi, r3) =>
        match r3 with
        | '.' :: r4 =>
          match parseNumId r4 with
          | none => none
          | some (pa, r5) =>
            let pr := match r5 with
              | '-' :: r =>
                match parseDotted parsePreId r with
                | some (ids, rr) => (ids, rr)
                | none => ([], r5)
              | _ => ([], r5)
            let bl := match pr.2 with
              | '+' :: r =>
                match parseDotted parseBuildId r with
                | some (ids, rr) => (ids, rr)
                | none => ([], pr.2)
              | _ => ([], pr.2)
            some ({ major := mj, minor := mi, patch := pa,
                    pre := pr.1, build := bl.1 }, bl.2)
        | _ => none
    | _ => none

/-- `re[FULL].test`: the anchored full-version pattern accepts the string. -/
def matchesFull (cs : List Char) : Bool :=
  match parseFullPlain cs with
  | some (_, []) => true
  | _ => false

/-- JS `String.prototype.trim` (ASCII whitespace). -/
def trimJs (cs : List Char) : List Char :=
  ((cs.dropWhile isWsC).reverse.dropWhile isWsC).reverse

/-- The constructor's numberification of a prerelease identifier
(`/^[0-9]+$/` test plus the `< MAX_SAFE_INTEGER` guard).  The source tests
the rounded `+id`; the exact value is tested here, which agrees: rounding
is monotone and `MAX_SAFE_INTEGER` is itself representable, so an exact
value below the guard rounds to itself and one at or above it rounds to a
value still at or above it. -/
def mkPreId (cs : List Char) : PreId :=
  if !cs.isEmpty && cs.all isDigitC then
    let n := toNatDigits cs
    if n < MAX_SAFE_INTEGER then .num n else .str ⟨cs⟩
  else .str ⟨cs⟩

/-- The throwing `SemVer` constructor on a string argument: length guard,
trim, anchored `re[FULL]` match, numeric-field range guards,
numberification of prerelease identifiers. -/
def newSemVer (s : String) : Except JsErr SemVer :=
  if s.data.length > MAX_LENGTH then
    .error (.typeError ("version is longer than 256 characters"))
  else
    match parseFullPlain (trimJs s.data) with
    | some (p, []) =>
      if toNatDigits p.major > MAX_SAFE_INTEGER then .error (.typeError "Invalid major version")
      else if toNatDigits p.minor > MAX_SAFE_INTEGER then .error (.typeError "Invalid minor version")
      else if toNatDigits p.patch > MAX_SAFE_INTEGER then .error (.typeError "Invalid patch version")
      else .ok { major := toNatDigits p.major, minor := toNatDigits p.minor,
                 patch := toNatDigits p.patch,
                 prerelease := p.pre.map mkPreId,
                 build := p.build.map (fun b => (⟨b⟩ : String)) }
    | _ => .error (.typeError ("Invalid Version: " ++ s))

/-- `parse`: `null`/non-string input is `none`; length guard; `re[FULL]`
test on the raw (untrimmed) string; then the constructor with a defensive
catch-all. -/
def parseJS (input : Option String) : Option SemVer :=
  match input with
  | none => none
  | some s =>
    if s.data.length > MAX_LENGTH then none
    else if !matchesFull s.data then none
    else (newSemVer s).toOption

/-- Top-level `compare` on two version strings (both constructed, throwing). -/
def compareStr (v1 v2 : String) : Except JsErr Int := do
  let a ← newSemVer v1
  let b ← newSemVer v2
  .ok (compareSemVer a b)

/-- Top-level `lt`. -/
def ltStr (v1 v2 : String) : Except JsErr Bool :=
  (compareStr v1 v2).map (fun c => decide (c < 0))

/-- Top-level `eq`. -/
def eqStr (v1 v2 : String) : Except JsErr Bool :=
  (compareStr v1 v2).map (fun c => decide (c = 0))

/-! ## `inc` -/

def isHexDigitC (c : Char) : Bool :=
  isDigitC c || (97 ≤ c.toNat && c.toNat ≤ 102) || (65 ≤ c.toNat && c.toNat ≤ 70)

/-- Decimal body accepted by JS `Number()`: optional integer digits, optional
fraction, at least one digit somewhere, optional exponent. -/
def jsNumBody (cs : List Char) : Bool :=
  let d1 := cs.takeWhile isDigitC
  let r1 := cs.dropWhile isDigitC
  let fr : Option (List Char × List Char) := match r1 with
    | '.' :: r => some (r.takeWhile isDigitC, r.dropWhile isDigitC)
    | _ => none
  let fracLen := match fr with | some (f, _) => f.length | none => 0
  let r2 := match fr with | some (_, rr) => rr | none => r1
  if d1.length + fracLen = 0 then false
  else
    match r2 with
    | [] => true
    | e :: r3 =>
      if e = 'e' || e = 'E' then
        let r4 := match r3 with
          | c :: r => if c = '+' || c = '-' then r else r3
          | [] => r3
        let ed := r4.takeWhile isDigitC
        !ed.isEmpty && (r4.dropWhile isDigitC).isEmpty
      else false

/-- A trimmed non-empty string accepted (non-NaN) by JS `Number()`. -/
def jsNumAccepts (cs : List Char) : Bool :=
  match cs with
  | '+' :: r => r = "Infinity".data || jsNumBody r
  | '-' :: r => r = "Infinity".data || jsNumBody r
  | '0' :: c :: r =>
    if c = 'x' || c = 'X' then !r.isEmpty && r.all isHexDigitC
    else if c = 'b' || c = 'B' then !r.isEmpty && r.all (fun d => d = '0' || d = '1')
    else if c = 'o' || c = 'O' then !r.isEmpty && r.all (fun d => 48 ≤ d.toNat && d.toNat ≤ 55)
    else cs = "Infinity".data || jsNumBody cs
  | _ => cs = "Infinity".data || jsNumBody cs

/-- JS `isNaN(s)` on a string. -/
def jsStrIsNaN (s : String) : Bool :=
  match trimJs s.data with
  | [] => false
  | cs => !jsNumAccepts cs

/-- `isNaN(this.prerelease[1])`: `undefined` is NaN, a number is not,
a string goes through `Number()` coercion. -/
def isNaNAtOne (l : List PreId) : Bool :=
  match l.drop 1 with
  | [] => true
  | .num _ :: _ => false
  | .str s :: _ => jsStrIsNaN s

/-- Bump the first numeric identifier of the reversed prerelease list. -/
def bumpRevAux : List PreId → Option (List PreId)
  | [] => none
  | .num n :: xs => some (.num (n + 1) :: xs)
  | .str s :: xs => (bumpRevAux xs).map (fun r => .str s :: r)

/-- The identifier-free part of the `pre` case of `inc`: empty prerelease
becomes `[0]`, otherwise the rightmost numeric identifier is incremented,
and `0` is appended if there is none. -/
def incPrePart (l : List PreId) : List PreId :=
  if l.isEmpty then [.num 0]
  else
    match bumpRevAux l.reverse with
    | some r => r.reverse
    | none => l ++ [.num 0]

/-- The identifier argument handling of the `pre` case (`prerelease[0] ===
identifier` is strict equality: only a string element can equal it). -/
def applyPreIdentifier (l : List PreId) (ident : Option String) : List PreId :=
  match ident with
  | none => l
  | some id =>
    match l with
    | .str s :: _ =>
      if s = id then (if isNaNAtOne l then [.str id, .num 0] else l) else [.str id, .num 0]
    | _ => [.str id, .num 0]

/-- `inc("pre", identifier)`. -/
def incPre (v : SemVer) (ident : Option String) : SemVer :=
  { v with prerelease := applyPreIdentifier (incPrePart v.prerelease) ident }

/-- `inc("major")`. -/
def incMajor (v : SemVer) : SemVer :=
  { v with
    major := if v.minor ≠ 0 ∨ v.patch ≠ 0 ∨ v.prerelease = [] then v.major + 1 else v.major,
    minor := 0, patch := 0, prerelease := [] }

/-- `inc("minor")`. -/
def incMinor (v : SemVer) : SemVer :=
  { v with
    minor := if v.patch ≠ 0 ∨ v.prerelease = [] then v.minor + 1 else v.minor,
    patch := 0, prerelease := [] }

/-- `inc("patch")`. -/
def incPatch (v : SemVer) : SemVer :=
  { v with
    patch := if v.prerelease = [] then v.patch + 1 else v.patch,
    prerelease := [] }

/-- `SemVer.inc`: the release-type switch (the source's recursive calls to
`this.inc` are inlined); an unknown release type throws. -/
def incSemVer (v : SemVer) (release : String) (ident : Option String) :
    Except JsErr SemVer :=
  match release with
  | "premajor" =>
    .ok (incPre { v with prerelease := [], patch := 0, minor := 0, major := v.major + 1 } ident)
  | "preminor" =>
    .ok (incPre { v with prerelease := [], patch := 0, minor := v.minor + 1 } ident)
  | "prepatch" => .ok (incPre (incPatch { v with prerelease := [] }) ident)
  | "prerelease" => .ok (incPre (if v.prerelease = [] then incPatch v else v) ident)
  | "major" => .ok (incMajor v)
  | "minor" => .ok (incMinor v)
  | "patch" => .ok (incPatch v)
  | "pre" => .ok (incPre v ident)
  | _ => .error (.genError ("invalid increment argument: " ++ release))

/-- Top-level `inc`: construct, bump, return the canonical string; `null` on
any throw. -/
def incStr (version : String) (release : String) (ident : Option String) :
    Option String :=
  match newSemVer version with
  | .error _ => none
  | .ok v =>
    match incSemVer v release ident with
    | .error _ => none
    | .ok v2 => some (formatSemVer v2)

/-! ## `diff` -/

/-- `diff`: `eq` (throwing) first; on inequality re-parse both sides and
report the first differing main field, `"pre"`-prefixed when either side has
a prerelease, with `"prerelease"` as the fallback in that case. -/
def diffStr (version1 version2 : String) : Except JsErr (Option String) := do
  let c ← compareStr version1 version2
  if c = 0 then .ok none
  else
    match parseJS (some version1), parseJS (some version2) with
    | some v1, some v2 =>
      let hasPre := !v1.prerelease.isEmpty || !v2.prerelease.isEmpty
      let pref := if hasPre then "pre" else ""
      let defaultResult : Option String := if hasPre then some "prerelease" else none
      if v1.major ≠ v2.major then .ok (some (pref ++ "major"))
      else if v1.minor ≠ v2.minor then .ok (some (pref ++ "minor"))
      else if v1.patch ≠ v2.patch then .ok (some (pref ++ "patch"))
      else .ok defaultResult
    | _, _ => .ok none

/-! ## JS string splitting used by `Range` -/

/-- Split at every single character satisfying `p` (JS `split` with a
single-character separator: empty fields are kept). -/
def splitSinglePred (p : Char → Bool) : List Char → List Char → List (List Char)
  | [], cur => [cur.reverse]
  | c :: rest, cur =>
    if p c then cur.reverse :: splitSinglePred p rest []
    else splitSinglePred p rest (c :: cur)

def splitPred (p : Char → Bool) (cs : List Char) : List (List Char) :=
  splitSinglePred p cs []

/-- Drop interior empty fields but keep the first and last, turning a
split-at-every-separator into JS `split(/\s+/)` (a run of separators is one
separator; a leading/trailing run still yields an empty first/last field). -/
def collapseMid : List (List Char) → List (List Char)
  | [] => []
  | [x] => [x]
  | x :: xs => if x.isEmpty then collapseMid xs else x :: collapseMid xs

/-- JS `split(/\s+/)`. -/
def splitWsRe (cs : List Char) : List (List Char) :=
  match splitPred isWsC cs with
  | [] => []
  | x :: xs => x :: collapseMid xs

/-- JS `split(/\s*\|\|\s*/)`: the flag is set right after a separator, while
leading whitespace is still being absorbed into it. -/
def splitOrOrGo : List Char → Bool → List Char → List (List Char)
  | [], _, cur => [cur.reverse]
  | '|' :: '|' :: rest, _, cur =>
    (cur.dropWhile isWsC).reverse :: splitOrOrGo rest true []
  | c :: rest, skip, cur =>
    if skip && isWsC c then splitOrOrGo rest true cur
    else splitOrOrGo rest false (c :: cur)

def splitOrOr (cs : List Char) : List (List Char) := splitOrOrGo cs false []

def joinSp : List (List Char) → List Char
  | [] => []
  | [x] => x
  | x :: xs => x ++ ' ' :: joinSp xs

def joinPipes : List (List Char) → List Char
  | [] => []
  | [x] => x
  | x :: xs => x ++ '|' :: '|' :: joinPipes xs

/-! ## X-range grammar (`XRANGEPLAIN`) and the shorthand rewrites -/

/-- Captures of `XRANGEPLAIN`: `[v=\s]*(xid)(\.(xid)(\.(xid)(-pre)?(+build)?)?)?`.
`raw` is the exact matched substring (used as the `m[1]`-style capture by the
hyphen-range rewrite). -/
structure XParts where
  raw : List Char
  M : List Char
  m : Option (List Char)
  p : Option (List Char)
  pr : Option (List Char)
  bld : Option (List Char)
deriving DecidableEq, Repr

def isVEqWs (c : Char) : Bool := c = 'v' || c = '=' || isWsC c

def optGet (o : Option (List Char)) : List Char := o.getD []

/-- Recursive-descent parse of `XRANGEPLAIN`.  An optional group whose body
fails is skipped, leaving its lead character unconsumed. -/
def xrangePlainParse (cs : List Char) : Option (XParts × List Char) :=
  let lead := cs.takeWhile isVEqWs
  let cs1 := cs.dropWhile isVEqWs
  match parseXId cs1 with
  | none => none
  | some (xM, r1) =>
    match r1 with
    | '.' :: r2 =>
      match parseXId r2 with
      | some (xm, r3) =>
        match r3 with
        | '.' :: r4 =>
          match parseXId r4 with
          | some (xpp, r5) =>
            let prp : Option (List Char) × List Char := match r5 with
              | '-' :: r =>
                match parseDotted parsePreId r with
                | some (ids, rr) => (some (joinDot ids), rr)
                | none => (none, r5)
              | _ => (none, r5)
            let blp : Option (List Char) × List Char := match prp.2 with
              | '+' :: r =>
                match parseDotted parseBuildId r with
                | some (ids, rr) => (some (joinDot ids), rr)
                | none => (none, prp.2)
              | _ => (none, prp.2)
            let rawPre := match prp.1 with | some x => '-' :: x | none => []
            let rawBld := match blp.1 with | some x => '+' :: x | none => []
            some ({ raw := lead ++ xM ++ '.' :: xm ++ '.' :: xpp ++ rawPre ++ rawBld,
                    M := xM, m := some xm, p := some xpp,
                    pr := prp.1, bld := blp.1 }, blp.2)
          | none =>
            some ({ raw := lead ++ xM ++ '.' :: xm, M := xM, m := some xm,
                    p := none, pr := none, bld := none }, r3)
        | _ =>
          some ({ raw := lead ++ xM ++ '.' :: xm, M := xM, m := some xm,
                  p := none, pr := none, bld := none }, r3)
      | none =>
        some ({ raw := lead ++ xM, M := xM, m := none, p := none,
                pr := none, bld := none }, r1)
    | _ =>
      some ({ raw := lead ++ xM, M := xM, m := none, p := none,
              pr := none, bld := none }, r1)

/-- `isX`: a missing component, `x`, `X` or `*`. -/
def isXOpt : Option (List Char) → Bool
  | none => true
  | some cs => cs = ['x'] || cs = ['X'] || cs = ['*']

/-- `^` followed by a full `XRANGEPLAIN` (anchored). -/
def caretMatch (cs : List Char) : Option XParts :=
  match cs with
  | '^' :: r =>
    match xrangePlainParse r with
    | some (xp, []) => some xp
    | _ => none
  | _ => none

/-- The replacement string computed by `replaceCaret` on a match. -/
def caretResult (x : XParts) : List Char :=
  let M := x.M
  let m := optGet x.m
  let p := optGet x.p
  if isXOpt (some x.M) then []
  else if isXOpt x.m then
    ">=".data ++ M ++ ".0.0 <".data ++ jsSuccStr (toNatDigits M) ++ ".0.0".data
  else if isXOpt x.p then
    if M = ['0'] then
      ">=".data ++ M ++ '.' :: m ++ ".0 <".data ++ M ++ '.' :: jsSuccStr (toNatDigits m) ++ ".0".data
    else
      ">=".data ++ M ++ '.' :: m ++ ".0 <".data ++ jsSuccStr (toNatDigits M) ++ ".0.0".data
  else
    match x.pr with
    | some pr =>
      if M = ['0'] then
        if m = ['0'] then
          ">=".data ++ M ++ '.' :: m ++ '.' :: p ++ '-' :: pr ++ " <".data ++
            M ++ '.' :: m ++ '.' :: jsSuccStr (toNatDigits p)
        else
          ">=".data ++ M ++ '.' :: m ++ '.' :: p ++ '-' :: pr ++ " <".data ++
            M ++ '.' :: jsSuccStr (toNatDigits m) ++ ".0".data
      else
        ">=".data ++ M ++ '.' :: m ++ '.' :: p ++ '-' :: pr ++ " <".data ++
          jsSuccStr (toNatDigits M) ++ ".0.0".data
    | none =>
      if M = ['0'] then
        if m = ['0'] then
          ">=".data ++ M ++ '.' :: m ++ '.' :: p ++ " <".data ++
            M ++ '.' :: m ++ '.' :: jsSuccStr (toNatDigits p)
        else
          ">=".data ++ M ++ '.' :: m ++ '.' :: p ++ " <".data ++
            M ++ '.' :: jsSuccStr (toNatDigits m) ++ ".0".data
      else
        ">=".data ++ M ++ '.' :: m ++ '.' :: p ++ " <".data ++
          jsSuccStr (toNatDigits M) ++ ".0.0".data

/-- `replaceCaret` on one whitespace-free token. -/
def replaceCaret (tok : List Char) : List Char :=
  match caretMatch tok with
  | some x => caretResult x
  | none => tok

def replaceCarets (comp : List Char) : List Char :=
  joinSp ((splitWsRe (trimJs comp)).map replaceCaret)

/-- `~` or `~>` followed by a full `XRANGEPLAIN` (anchored). -/
def tildeMatch (cs : List Char) : Option XParts :=
  match cs with
  | '~' :: r =>
    let r2 := match r with | '>' :: rr => rr | _ => r
    match xrangePlainParse r2 with
    | some (xp, []) => some xp
    | _ => none
  | _ => none

def tildeResult (x : XParts) : List Char :=
  let M := x.M
  let m := optGet x.m
  let p := optGet x.p
  if isXOpt (some x.M) then []
  else if isXOpt x.m then
    ">=".data ++ M ++ ".0.0 <".data ++ jsSuccStr (toNatDigits M) ++ ".0.0".data
  else if isXOpt x.p then
    ">=".data ++ M ++ '.' :: m ++ ".0 <".data ++ M ++ '.' :: jsSuccStr (toNatDigits m) ++ ".0".data
  else
    match x.pr with
    | some pr =>
      ">=".data ++ M ++ '.' :: m ++ '.' :: p ++ '-' :: pr ++ " <".data ++
        M ++ '.' :: jsSuccStr (toNatDigits m) ++ ".0".data
    | none =>
      ">=".data ++ M ++ '.' :: m ++ '.' :: p ++ " <".data ++
        M ++ '.' :: jsSuccStr (toNatDigits m) ++ ".0".data

def replaceTilde (tok : List Char) : List Char :=
  match tildeMatch tok with
  | some x => tildeResult x
  | none => tok

def replaceTildes (comp : List Char) : List Char :=
  joinSp ((splitWsRe (trimJs comp)).map replaceTilde)

/-- The `GTLT` operator prefix `((?:<|>)?=?)`, greedy. -/
def parseGtlt (cs : List Char) : List Char × List Char :=
  match cs with
  | '<' :: '=' :: r => (['<', '='], r)
  | '>' :: '=' :: r => (['>', '='], r)
  | '<' :: r => (['<'], r)
  | '>' :: r => (['>'], r)
  | '=' :: r => (['='], r)
  | _ => ([], cs)

/-- `XRANGE`: `^GTLT\s*XRANGEPLAIN$`. -/
def xrangeMatch (tok : List Char) : Option (List Char × XParts) :=
  let g := parseGtlt tok
  match xrangePlainParse (g.2.dropWhile isWsC) with
  | some (xp, []) => some (g.1, xp)
  | _ => none

/-- `replaceXRange` on one token. -/
def replaceXRange (tok : List Char) : List Char :=
  match xrangeMatch tok with
  | none => tok
  | some (gtlt0, x) =>
    let xM := isXOpt (some x.M)
    let xm := xM || isXOpt x.m
    let xp := xm || isXOpt x.p
    let anyX := xp
    let gtlt := if gtlt0 = ['='] && anyX then [] else gtlt0
    if xM then
      if gtlt = ['>'] || gtlt = ['<'] then "<0.0.0".data else ['*']
    else if !gtlt.isEmpty && anyX then
      let M1 := x.M
      let m1 : List Char := if xm then ['0'] else optGet x.m
      if gtlt = ['>'] then
        if xm then ">=".data ++ jsSuccStr (toNatDigits M1) ++ ".0.0".data
        else ">=".data ++ M1 ++ '.' :: jsSuccStr (toNatDigits m1) ++ ".0".data
      else if gtlt = ['<', '='] then
        if xm then "<".data ++ jsSuccStr (toNatDigits M1) ++ '.' :: m1 ++ ".0".data
        else "<".data ++ M1 ++ '.' :: jsSuccStr (toNatDigits m1) ++ ".0".data
      else gtlt ++ M1 ++ '.' :: m1 ++ ".0".data
    else if xm then
      ">=".data ++ x.M ++ ".0.0 <".data ++ jsSuccStr (toNatDigits x.M) ++ ".0.0".data
    else if xp then
      ">=".data ++ x.M ++ '.' :: optGet x.m ++ ".0 <".data ++
        x.M ++ '.' :: jsSuccStr (toNatDigits (optGet x.m)) ++ ".0".data
    else tok

def replaceXRanges (comp : List Char) : List Char :=
  joinSp ((splitWsRe comp).map replaceXRange)

/-- One attempt of the (unanchored) `STAR` pattern `(<|>)?=?\s*\*` at the
head of `cs`. -/
def starTail (cs : List Char) : Option (List Char) :=
  let afterEq := match cs with | '=' :: r => r | _ => cs
  match afterEq.dropWhile isWsC with
  | '*' :: r => some r
  | _ => none

def starMatchAt (cs : List Char) : Option (List Char) :=
  match cs with
  | [] => none
  | c :: r => if c = '<' || c = '>' then starTail r else starTail cs

/-- Replace the leftmost `STAR` match with the empty string. -/
def replaceStarsGo : List Char → List Char → List Char
  | [], acc => acc.reverse
  | c :: rest, acc =>
    match starMatchAt (c :: rest) with
    | some after => acc.reverse ++ after
    | none => replaceStarsGo rest (c :: acc)

def replaceStars (comp : List Char) : List Char :=
  replaceStarsGo (trimJs comp) []

/-- `parseComparator`: caret, tilde, x-range, star rewrites in that order. -/
def parseComparatorTok (tok : List Char) : List Char :=
  replaceStars (replaceXRanges (replaceTildes (replaceCarets tok)))

/-- `HYPHENRANGE`: `^\s*(XRANGEPLAIN)\s+-\s+(XRANGEPLAIN)\s*$`. -/
def hyphenMatch (cs : List Char) : Option (XParts × XParts) :=
  match xrangePlainParse (cs.dropWhile isWsC) with
  | none => none
  | some (x1, r1) =>
    if (r1.takeWhile isWsC).isEmpty then none
    else
      match r1.dropWhile isWsC with
      | '-' :: r3 =>
        if (r3.takeWhile isWsC).isEmpty then none
        else
          match xrangePlainParse (r3.dropWhile isWsC) with
          | none => none
          | some (x2, r5) => if r5.all isWsC then some (x1, x2) else none
      | _ => none

/-- `hyphenReplace`: the replacement computed from the two captures. -/
def hyphenResult (x1 x2 : XParts) : List Char :=
  let fromS :=
    if isXOpt (some x1.M) then []
    else if isXOpt x1.m then ">=".data ++ x1.M ++ ".0.0".data
    else if isXOpt x1.p then ">=".data ++ x1.M ++ '.' :: optGet x1.m ++ ".0".data
    else ">=".data ++ x1.raw
  let toS :=
    if isXOpt (some x2.M) then []
    else if isXOpt x2.m then "<".data ++ jsSuccStr (toNatDigits x2.M) ++ ".0.0".data
    else if isXOpt x2.p then
      "<".data ++ x2.M ++ '.' :: jsSuccStr (toNatDigits (optGet x2.m)) ++ ".0".data
    else
      match x2.pr with
      | some tpr => "<=".data ++ x2.M ++ '.' :: optGet x2.m ++ '.' :: optGet x2.p ++ '-' :: tpr
      | none => "<=".data ++ x2.raw
  trimJs (fromS ++ ' ' :: toS)

def hyphenReplaceAll (cs : List Char) : List Char :=
  match hyphenMatch cs with
  | some (a, b) => hyphenResult a b
  | none => cs

/-! ## Comparator and Range -/

inductive CompOp where
  | eqOp
  | ltOp
  | leOp
  | gtOp
  | geOp
deriving DecidableEq, Repr

/-- A parsed comparator; `semver = none` is the `ANY` sentinel.  The
grammar only produces the operators of `CompOp` (a bare `=` is normalized
to the empty operator, i.e. `eqOp`). -/
structure ComparatorS where
  op : CompOp
  semver : Option SemVer
deriving DecidableEq, Repr

/-- `Comparator.parse` (plus the constructor): the empty token is `ANY`,
otherwise `^GTLT\s*FULLPLAIN$` with the version built by the throwing
`SemVer` constructor. -/
def comparatorParse (tok : List Char) : Except JsErr ComparatorS :=
  match tok with
  | [] => .ok { op := .eqOp, semver := none }
  | _ =>
    let g := parseGtlt tok
    let rest := g.2.dropWhile isWsC
    match parseFullPlain rest with
    | some (_, []) =>
      match newSemVer ⟨rest⟩ with
      | .ok sv =>
        let op : CompOp := match g.1 with
          | ['<'] => .ltOp
          | ['<', '='] => .leOp
          | ['>'] => .gtOp
          | ['>', '='] => .geOp
          | _ => .eqOp
        .ok { op := op, semver := some sv }
      | .error e => .error e
    | _ => .error (.typeError ("Invalid comparator: " ++ (⟨tok⟩ : String)))

structure RangeS where
  set : List (List ComparatorS)
  includePrerelease : Bool
deriving DecidableEq, Repr

/-- `Range.parseRange` on one `||`-group. -/
def parseRangeGroup (grp : List Char) : Except JsErr (List ComparatorS) :=
  let r1 := trimJs grp
  let r2 := hyphenReplaceAll r1
  let r3 := joinSp (splitWsRe r2)
  let toks := splitPred (fun c => c = ' ') r3
  let toks2 := splitWsRe (joinSp (toks.map parseComparatorTok))
  toks2.mapM comparatorParse

/-- The `Range` constructor on a string: split on `||`, parse each group,
drop empty groups, throw if none remain. -/
def mkRange (rs : String) (ipr : Bool) : Except JsErr RangeS := do
  let sets ← (splitOrOr rs.data).mapM (fun g => parseRangeGroup (trimJs g))
  let sets2 := sets.filter (fun c => !c.isEmpty)
  if sets2.isEmpty then .error (.typeError ("Invalid SemVer Range: " ++ rs))
  else .ok { set := sets2, includePrerelease := ipr }

/-- `cmp` restricted to the operators a parsed comparator can carry. -/
def cmpOpB (op : CompOp) (c : Int) : Bool :=
  match op with
  | .eqOp => c = 0
  | .ltOp => c < 0
  | .leOp => c ≤ 0
  | .gtOp => c > 0
  | .geOp => c ≥ 0

/-- `Comparator.test` on a constructed version. -/
def comparatorTest (c : ComparatorS) (v : SemVer) : Bool :=
  match c.semver with
  | none => true
  | some sv => cmpOpB c.op (compareSemVer v sv)

/-- `testSet`: all comparators must pass; a prerelease version additionally
needs (unless `includePrerelease`) some comparator of the same group whose
version has a prerelease at the same `major.minor.patch`. -/
def testSet (set : List ComparatorS) (v : SemVer) (ipr : Bool) : Bool :=
  if !(set.all (fun c => comparatorTest c v)) then false
  else if !v.prerelease.isEmpty && !ipr then
    set.any (fun c =>
      match c.semver with
      | none => false
      | some sv =>
        !sv.prerelease.isEmpty && sv.major == v.major &&
          sv.minor == v.minor && sv.patch == v.patch)
  else true

/-- `Range.test` on a constructed version. -/
def rangeTestV (r : RangeS) (v : SemVer) : Bool :=
  r.set.any (fun s => testSet s v r.includePrerelease)

/-- `Range.test` on a version string: the string goes through the throwing
constructor (no catch in the source). -/
def rangeTestStr (r : RangeS) (s : String) : Except JsErr Bool :=
  (newSemVer s).map (rangeTestV r)

/-- `satisfies`: only the `Range` construction is inside `try`/`catch`. -/
def satisfiesE (version range : String) (ipr : Bool) : Except JsErr Bool :=
  match mkRange range ipr with
  | .error _ => .ok false
  | .ok r => rangeTestStr r version

def compOpChars : CompOp → List Char
  | .eqOp => []
  | .ltOp => ['<']
  | .leOp => ['<', '=']
  | .gtOp => ['>']
  | .geOp => ['>', '=']

/-- `Comparator.value`. -/
def comparatorValue (c : ComparatorS) : List Char :=
  match c.semver with
  | none => []
  | some sv => compOpChars c.op ++ (formatSemVer sv).data

/-- `Range.format` / `Range.range`. -/
def formatRange (r : RangeS) : String :=
  ⟨trimJs (joinPipes (r.set.map (fun comps => trimJs (joinSp (comps.map comparatorValue)))))⟩

/-- `validRange`: `null` for `null` input or a throwing construction,
`"*"` for an empty-but-valid normalized range. -/
def validRange (range : Option String) (ipr : Bool) : Option String :=
  match range with
  | none => none
  | some rs =>
    match mkRange rs ipr with
    | .error _ => none
    | .ok r =>
      let s := formatRange r
      some (if s.data.isEmpty then "*" else s)

/-! ## maxSatisfying / minSatisfying / minVersion -/

/-- JS truthiness test `!x` on a nullable string. -/
def jsFalsyStr : Option String → Bool
  | none => true
  | some s => s.data.isEmpty

/-- `sv.compare(v)` with a string argument (constructs, may throw). -/
def compareToStr (sv : SemVer) (v : String) : Except JsErr Int :=
  (newSemVer v).map (fun b => compareSemVer sv b)

/-- The `versions.forEach` loop of `maxSatisfying` (note the defensive
`maxSV &&` guard). -/
def maxSatGo (r : RangeS) : List String → Option String → Option SemVer →
    Except JsErr (Option String)
  | [], maxv, _ => .ok maxv
  | v :: rest, maxv, maxSV => do
    let t ← rangeTestStr r v
    if t then
      let upd ←
        if jsFalsyStr maxv then pure true
        else
          match maxSV with
          | none => pure false
          | some sv => do
            let c ← compareToStr sv v
            pure (decide (c = -1))
      if upd then do
        let nsv ← newSemVer v
        maxSatGo r rest (some v) (some nsv)
      else maxSatGo r rest maxv maxSV
    else maxSatGo r rest maxv maxSV

/-- `maxSatisfying`. -/
def maxSatisfyingE (versions : List String) (range : String) (ipr : Bool) :
    Except JsErr (Option String) :=
  match mkRange range ipr with
  | .error _ => .ok none
  | .ok r => maxSatGo r versions none none

/-- The `versions.forEach` loop of `minSatisfying`: here the comparison is
`!min || minSV.compare(v) === 1` with no guard on `minSV`, so the model
raises `nullDeref` if `minSV` is ever dereferenced while `null`. -/
def minSatGo (r : RangeS) : List String → Option String → Option SemVer →
    Except JsErr (Option String)
  | [], minv, _ => .ok minv
  | v :: rest, minv, minSV => do
    let t ← rangeTestStr r v
    if t then
      let upd ←
        if jsFalsyStr minv then pure true
        else
          match minSV with
          | none => Except.error (.nullDeref "minSV.compare called on null")
          | some sv => do
            let c ← compareToStr sv v
            pure (decide (c = 1))
      if upd then do
        let nsv ← newSemVer v
        minSatGo r rest (some v) (some nsv)
      else minSatGo r rest minv minSV
    else minSatGo r rest minv minSV

/-- `minSatisfying`. -/
def minSatisfyingE (versions : List String) (range : String) (ipr : Bool) :
    Except JsErr (Option String) :=
  match mkRange range ipr with
  | .error _ => .ok none
  | .ok r => minSatGo r versions none none

/-- `if (!minver || gt(minver, compver)) minver = compver`. -/
def updateMin (acc : Option SemVer) (compver : SemVer) : Option SemVer :=
  match acc with
  | none => some compver
  | some mv => if compareSemVer mv compver > 0 then some compver else some mv

/-- One comparator step of the `minVersion` loop: clone via
`new SemVer(comparator.semver.version)` (throws on the `ANY` sentinel whose
`semver.version` is `undefined`), bump a `>` bound to an exclusive
successor, keep the lowest lower bound; upper bounds are ignored. -/
def minVerStep (acc : Option SemVer) (c : ComparatorS) :
    Except JsErr (Option SemVer) :=
  match c.semver with
  | none => .error (.typeError "Invalid Version: undefined")
  | some sv => do
    let compver ← newSemVer (formatSemVer sv)
    match c.op with
    | .gtOp =>
      let compver2 :=
        if compver.prerelease.isEmpty then { compver with patch := compver.patch + 1 }
        else { compver with prerelease := compver.prerelease ++ [.num 0] }
      .ok (updateMin acc compver2)
    | .eqOp | .geOp => .ok (updateMin acc compver)
    | .ltOp | .leOp => .ok acc

def semverZero : SemVer :=
  { major := 0, minor := 0, patch := 0, prerelease := [], build := [] }

def semverZeroPre : SemVer :=
  { major := 0, minor := 0, patch := 0, prerelease := [.num 0], build := [] }

/-- `minVersion`: try `0.0.0` and `0.0.0-0` literally, then scan every
comparator of every group for the lowest lower bound, and return it only if
the whole range accepts it. -/
def minVersionE (range : String) (ipr : Bool) : Except JsErr (Option SemVer) := do
  let r ← mkRange range ipr
  if rangeTestV r semverZero then .ok (some semverZero)
  else if rangeTestV r semverZeroPre then .ok (some semverZeroPre)
  else do
    let minver ← r.set.foldlM (fun acc comps => comps.foldlM minVerStep acc) none
    match minver with
    | some mv => if rangeTestV r mv then .ok (some mv) else .ok none
    | none => .ok none

/-! ## Parser invariants and spec-side definitions -/

/-- Invariant of prerelease identifiers produced by the constructor: a
numberified identifier is below `MAX_SAFE_INTEGER`; an all-digit identifier
kept as a string has no leading zero (grammar) and a value at or above
`MAX_SAFE_INTEGER` (otherwise it would have been numberified). -/
def validPreId : PreId → Bool
  | .num n => decide (n < MAX_SAFE_INTEGER)
  | .str s =>
    if isNumericStr s then validNumRun s.data && decide (MAX_SAFE_INTEGER ≤ toNatDigits s.data)
    else true

/-- A `SemVer` whose prerelease identifiers satisfy the constructor
invariant (true of every parsed version). -/
def validSemVer (v : SemVer) : Bool := v.prerelease.all validPreId

/-- A prerelease identifier on which the `+a` coercion in
`compareIdentifiers` is lossless: numberified identifiers (always below
`MAX_SAFE_INTEGER`) and non-numeric strings (never coerced).  The all-digit
identifiers kept as strings sit at or above `MAX_SAFE_INTEGER`, where
distinct values can round to the same double. -/
def exactId : PreId → Bool
  | .num _ => true
  | .str s => !isNumericStr s

/-- Main components inside the exact double range (true of every
constructed version: the constructor rejects components above
`MAX_SAFE_INTEGER`). -/
def mainExact (v : SemVer) : Bool :=
  decide (v.major < 2 ^ 53) && decide (v.minor < 2 ^ 53) && decide (v.patch < 2 ^ 53)

/-- A version on which every number coercion inside `compare` is lossless.
-/
def exactSemVer (v : SemVer) : Bool := mainExact v && v.prerelease.all exactId

/-- Modelled from the spec sentence for C1: one prerelease identifier
compared by the spec's rule — numeric identifiers compare numerically,
non-numeric compare lexically, and a numeric identifier is always less than
a non-numeric one. -/
def specCmpId (a b : PreId) : Int :=
  if preIdIsNum a && preIdIsNum b then
    if preIdVal a < preIdVal b then -1 else if preIdVal b < preIdVal a then 1 else 0
  else if preIdIsNum a && !preIdIsNum b then -1
  else if preIdIsNum b && !preIdIsNum a then 1
  else if preIdLt a b then -1 else if preIdLt b a then 1 else 0

/-- Modelled from the spec sentence for C1: identifiers are compared left to
right; when one list is a proper prefix of the other the shorter list is
strictly less; equal only when both are exhausted simultaneously. -/
def specPreOrderLoop : List PreId → List PreId → Int
  | [], [] => 0
  | [], _ :: _ => -1
  | _ :: _, [] => 1
  | a :: as, b :: bs =>
    if specCmpId a b = 0 then specPreOrderLoop as bs else specCmpId a b

/-- Modelled from the spec sentence for C1: a version with a non-empty
prerelease list is strictly less than the same main version with an empty
one; if both are empty the result is 0; otherwise the identifier lists are
compared left to right. -/
def specPreOrder (l1 l2 : List PreId) : Int :=
  if l1 ≠ [] ∧ l2 = [] then -1
  else if l1 = [] ∧ l2 ≠ [] then 1
  else if l1 = [] ∧ l2 = [] then 0
  else specPreOrderLoop l1 l2

/-- The behaviour `diff` actually implements (the amended C9): `none` iff
the versions compare equal; otherwise the first differing main field,
`"pre"`-prefixed when either side has a prerelease; `"prerelease"` when
either side has a prerelease but all main fields coincide. -/
def expectedDiff (a b : SemVer) : Option String :=
  if compareSemVer a b = 0 then none
  else
    let hasPre := !a.prerelease.isEmpty || !b.prerelease.isEmpty
    let pref := if hasPre then "pre" else ""
    if a.major ≠ b.major then some (pref ++ "major")
    else if a.minor ≠ b.minor then some (pref ++ "minor")
    else if a.patch ≠ b.patch then some (pref ++ "patch")
    else if hasPre then some "prerelease" else none

/-- Modelled from the spec sentence for C4: the upper bound `NEXT` of the
caret rewrite bumps the first non-zero-from-left field among major, minor,
patch and zeroes the fields after it.  Zero-ness of a field is its numeric
value (the code tests the literal string `'0'`; the two agree on the
grammar's numeric identifiers, which carry no leading zero). -/
def specCaretNext (M m p : List Char) : List Char :=
  if toNatDigits M = 0 then
    if toNatDigits m = 0 then M ++ '.' :: m ++ '.' :: natRepr (toNatDigits p + 1)
    else M ++ '.' :: natRepr (toNatDigits m + 1) ++ ".0".data
  else natRepr (toNatDigits M + 1) ++ ".0.0".data

/-! ## Order lemmas for the comparison functions -/

theorem charToNat_inj {a b : Char} (h : a.toNat = b.toNat) : a = b :=
  Char.eq_of_val_eq (UInt32.ext h)

theorem strLtB_irrefl (s : List Char) : strLtB s s = false := by
  induction s with
  | nil => rfl
  | cons c cs ih => simp [strLtB, ih]

theorem strLtB_asymm : ∀ s t : List Char, strLtB s t = true → strLtB t s = false := by
  intro s
  induction s with
  | nil =>
    intro t h
    cases t with
    | nil => simp [strLtB] at h
    | cons d ds => simp [strLtB]
  | cons c cs ih =>
    intro t h
    cases t with
    | nil => simp [strLtB] at h
    | cons d ds =>
      simp only [strLtB] at h ⊢
      by_cases hcd : c = d
      · subst hcd
        simp only [if_pos rfl] at h ⊢
        exact ih ds h
      · rw [if_neg hcd] at h
        rw [if_neg (fun hh => hcd hh.symm)]
        have hlt : c < d := of_decide_eq_true h
        simp [not_lt.mpr (le_of_lt hlt)]

theorem strLtB_total : ∀ s t : List Char, s ≠ t → strLtB s t = true ∨ strLtB t s = true := by
  intro s
  induction s with
  | nil =>
    intro t h
    cases t with
    | nil => exact absurd rfl h
    | cons d ds => left; rfl
  | cons c cs ih =>
    intro t h
    cases t with
    | nil => right; rfl
    | cons d ds =>
      by_cases hcd : c = d
      · subst hcd
        have hne : cs ≠ ds := fun hh => h (by rw [hh])
        rcases ih ds hne with h1 | h1
        · left; simp [strLtB, h1]
        · right; simp [strLtB, h1]
      · rcases lt_or_gt_of_ne (fun hh : c = d => hcd hh) with hlt | hgt
        · left; simp [strLtB, hcd, hlt]
        · right
          have hdc : ¬d = c := fun hh => hcd hh.symm
          simp only [strLtB, if_neg hdc]
          exact decide_eq_true hgt

theorem strLtB_trans : ∀ s t u : List Char,
    strLtB s t = true → strLtB t u = true → strLtB s u = true := by
  intro s
  induction s with
  | nil =>
    intro t u h1 h2
    cases u with
    | nil =>
      cases t with
      | nil => simp [strLtB] at h1
      | cons d ds => simp [strLtB] at h2
    | cons e es => rfl
  | cons c cs ih =>
    intro t u h1 h2
    cases t with
    | nil => simp [strLtB] at h1
    | cons d ds =>
      cases u with
      | nil => simp [strLtB] at h2
      | cons e es =>
        simp only [strLtB] at h1 h2 ⊢
        by_cases hcd : c = d
        · subst hcd
          rw [if_pos rfl] at h1
          by_cases hde : c = e
          · subst hde
            rw [if_pos rfl] at h2 ⊢
            exact ih ds es h1 h2
          · rw [if_neg hde] at h2 ⊢
            exact h2
        · rw [if_neg hcd] at h1
          have hlt1 : c < d := of_decide_eq_true h1
          by_cases hde : d = e
          · subst hde
            rw [if_neg hcd]
            exact decide_eq_true hlt1
          · rw [if_neg hde] at h2
            have hlt2 : d < e := of_decide_eq_true h2
            have hce : c < e := lt_trans hlt1 hlt2
            rw [if_neg (ne_of_lt hce)]
            exact decide_eq_true hce

theorem jsNumEq_iff (o1 o2 : Option Nat) : jsNumEq o1 o2 = true ↔ o1 = o2 := by
  cases o1 <;> cases o2 <;> simp [jsNumEq]

theorem jsNumEq_refl (o : Option Nat) : jsNumEq o o = true := (jsNumEq_iff o o).mpr rfl

theorem jsNumEq_false_of_ne {o1 o2 : Option Nat} (h : o1 ≠ o2) : jsNumEq o1 o2 = false := by
  cases he : jsNumEq o1 o2
  · rfl
  · exact absurd ((jsNumEq_iff o1 o2).mp he) h

theorem jsNumLt_irrefl (o : Option Nat) : jsNumLt o o = false := by
  cases o <;> simp [jsNumLt]

theorem jsNumLt_asymm {o1 o2 : Option Nat} (h : jsNumLt o1 o2 = true) :
    jsNumLt o2 o1 = false := by
  cases o1 <;> cases o2 <;> simp_all [jsNumLt] <;> omega

theorem jsNumLt_trans {o1 o2 o3 : Option Nat} (h1 : jsNumLt o1 o2 = true)
    (h2 : jsNumLt o2 o3 = true) : jsNumLt o1 o3 = true := by
  cases o1 <;> cases o2 <;> cases o3 <;> simp_all [jsNumLt] <;> omega

theorem jsNum_trichotomy {o1 o2 : Option Nat} (h : o1 ≠ o2) :
    jsNumLt o1 o2 = true ∨ jsNumLt o2 o1 = true := by
  cases o1 <;> cases o2 <;> simp_all [jsNumLt] <;> omega

theorem jsNumLt_ne {o1 o2 : Option Nat} (h : jsNumLt o1 o2 = true) : o1 ≠ o2 := by
  intro he
  subst he
  rw [jsNumLt_irrefl] at h
  cases h

theorem jsRound_small {v : Nat} (h : v < 2 ^ 53) : jsRound v = some v := by
  unfold jsRound
  rw [if_pos h]

theorem cmpId_self (a : PreId) : compareIdentifiers a a = 0 := by
  cases a with
  | num n => simp [compareIdentifiers, preIdIsNum, jsNumEq_refl]
  | str s =>
    by_cases h : isNumericStr s
    · simp [compareIdentifiers, preIdIsNum, h, jsNumEq_refl]
    · simp [compareIdentifiers, preIdIsNum, h]

theorem cmpId_mem (a b : PreId) :
    compareIdentifiers a b = -1 ∨ compareIdentifiers a b = 0 ∨ compareIdentifiers a b = 1 := by
  unfold compareIdentifiers
  split
  · split
    · right; left; rfl
    · split
      · left; rfl
      · right; right; rfl
  · split
    · right; left; rfl
    · split
      · left; rfl
      · split
        · right; right; rfl
        · split
          · left; rfl
          · right; right; rfl

theorem cmpId_neg (a b : PreId) : compareIdentifiers a b = -compareIdentifiers b a := by
  by_cases heq : a = b
  · subst heq
    simp [cmpId_self]
  · have heq' : ¬b = a := fun hh => heq hh.symm
    cases ha : preIdIsNum a <;> cases hb : preIdIsNum b
    · -- both non-numeric: strings, distinct, decided lexically
      cases a with
      | num n => simp [preIdIsNum] at ha
      | str s =>
        cases b with
        | num m => simp [preIdIsNum] at hb
        | str t =>
          have hst : s.data ≠ t.data := by
            intro hh
            exact heq (by rw [String.ext hh])
          rcases strLtB_total s.data t.data hst with hl | hl
          · simp [compareIdentifiers, ha, hb, heq, heq', preIdLt, hl, strLtB_asymm _ _ hl]
          · simp [compareIdentifiers, ha, hb, heq, heq', preIdLt, hl, strLtB_asymm _ _ hl]
    · simp [compareIdentifiers, ha, hb, heq, heq']
    · simp [compareIdentifiers, ha, hb, heq, heq']
    · rcases eq_or_ne (jsRound (preIdVal a)) (jsRound (preIdVal b)) with h | h
      · simp [compareIdentifiers, ha, hb, (jsNumEq_iff _ _).mpr h,
          (jsNumEq_iff _ _).mpr h.symm]
      · have h' : jsRound (preIdVal b) ≠ jsRound (preIdVal a) := fun hh => h hh.symm
        rcases jsNum_trichotomy h with hl | hl
        · simp [compareIdentifiers, ha, hb, jsNumEq_false_of_ne h,
            jsNumEq_false_of_ne h', hl, jsNumLt_asymm hl]
        · simp [compareIdentifiers, ha, hb, jsNumEq_false_of_ne h,
            jsNumEq_false_of_ne h', hl, jsNumLt_asymm hl]

theorem toNatDigits_acc (cs : List Char) : ∀ a : Nat,
    cs.foldl (fun x c => x * 10 + (c.toNat - 48)) a = a * 10 ^ cs.length + toNatDigits cs := by
  induction cs with
  | nil => intro a; simp [toNatDigits]
  | cons c cs ih =>
    intro a
    have hrhs : toNatDigits (c :: cs) = (c.toNat - 48) * 10 ^ cs.length + toNatDigits cs := by
      conv_lhs => rw [toNatDigits]
      rw [List.foldl_cons, ih (0 * 10 + (c.toNat - 48))]
      ring
    simp only [List.foldl_cons, List.length_cons]
    rw [ih (a * 10 + (c.toNat - 48)), hrhs]
    ring

theorem toNatDigits_cons (c : Char) (cs : List Char) :
    toNatDigits (c :: cs) = (c.toNat - 48) * 10 ^ cs.length + toNatDigits cs := by
  conv_lhs => rw [toNatDigits]
  rw [List.foldl_cons, toNatDigits_acc cs (0 * 10 + (c.toNat - 48))]
  ring

theorem digit_sub_lt {c : Char} (h : isDigitC c = true) : c.toNat - 48 < 10 := by
  simp only [isDigitC, Bool.and_eq_true, decide_eq_true_eq] at h
  omega

theorem digit_sub_pos {c : Char} (h : isDigitC c = true) (h0 : c ≠ '0') :
    1 ≤ c.toNat - 48 := by
  simp only [isDigitC, Bool.and_eq_true, decide_eq_true_eq] at h
  by_contra hc
  have : c.toNat = 48 := by omega
  exact h0 (charToNat_inj this)

theorem toNatDigits_lt (cs : List Char) (h : ∀ c ∈ cs, isDigitC c = true) :
    toNatDigits cs < 10 ^ cs.length := by
  induction cs with
  | nil => simp [toNatDigits]
  | cons c cs ih =>
    rw [toNatDigits_cons, List.length_cons, pow_succ]
    have h1 : toNatDigits cs < 10 ^ cs.length := ih (fun x hx => h x (List.mem_cons_of_mem _ hx))
    have h2 : c.toNat - 48 < 10 := digit_sub_lt (h c (List.mem_cons_self _ _))
    calc (c.toNat - 48) * 10 ^ cs.length + toNatDigits cs
        < (c.toNat - 48) * 10 ^ cs.length + 10 ^ cs.length := by omega
      _ = (c.toNat - 48 + 1) * 10 ^ cs.length := by ring
      _ ≤ 10 * 10 ^ cs.length := Nat.mul_le_mul_right _ (by omega)
      _ = 10 ^ cs.length * 10 := by ring

theorem toNatDigits_head_ge (c : Char) (cs : List Char)
    (hd : isDigitC c = true) (h0 : c ≠ '0') :
    10 ^ cs.length ≤ toNatDigits (c :: cs) := by
  rw [toNatDigits_cons]
  have := digit_sub_pos hd h0
  calc 10 ^ cs.length = 1 * 10 ^ cs.length := by ring
    _ ≤ (c.toNat - 48) * 10 ^ cs.length := Nat.mul_le_mul_right _ this
    _ ≤ (c.toNat - 48) * 10 ^ cs.length + toNatDigits cs := Nat.le_add_right _ _

theorem digits_inj_len : ∀ s t : List Char, s.length = t.length →
    (∀ c ∈ s, isDigitC c = true) → (∀ c ∈ t, isDigitC c = true) →
    toNatDigits s = toNatDigits t → s = t := by
  intro s
  induction s with
  | nil =>
    intro t hl _ _ _
    cases t with
    | nil => rfl
    | cons d ds => simp at hl
  | cons c cs ih =>
    intro t hl hs ht hv
    cases t with
    | nil => simp at hl
    | cons d ds =>
      have hlen : cs.length = ds.length := by simpa using hl
      rw [toNatDigits_cons, toNatDigits_cons, hlen] at hv
      have hB : 0 < 10 ^ ds.length := Nat.pos_pow_of_pos _ (by omega)
      have h1 : toNatDigits cs < 10 ^ ds.length := by
        rw [← hlen]; exact toNatDigits_lt cs (fun x hx => hs x (List.mem_cons_of_mem _ hx))
      have h2 : toNatDigits ds < 10 ^ ds.length :=
        toNatDigits_lt ds (fun x hx => ht x (List.mem_cons_of_mem _ hx))
      have e1 : ((c.toNat - 48) * 10 ^ ds.length + toNatDigits cs) / 10 ^ ds.length
          = c.toNat - 48 := by
        rw [Nat.mul_comm, Nat.mul_add_div hB, Nat.div_eq_of_lt h1, Nat.add_zero]
      have e2 : ((d.toNat - 48) * 10 ^ ds.length + toNatDigits ds) / 10 ^ ds.length
          = d.toNat - 48 := by
        rw [Nat.mul_comm, Nat.mul_add_div hB, Nat.div_eq_of_lt h2, Nat.add_zero]
      have hcd : c.toNat - 48 = d.toNat - 48 := by rw [← e1, ← e2, hv]
      have hcd' : c = d := by
        have hc := hs c (List.mem_cons_self _ _)
        have hd := ht d (List.mem_cons_self _ _)
        simp only [isDigitC, Bool.and_eq_true, decide_eq_true_eq] at hc hd
        exact charToNat_inj (by omega)
      rw [hcd] at hv
      have htl : toNatDigits cs = toNatDigits ds := Nat.add_left_cancel hv
      rw [hcd', ih ds hlen (fun x hx => hs x (List.mem_cons_of_mem _ hx))
        (fun x hx => ht x (List.mem_cons_of_mem _ hx)) htl]

theorem validNumRun_shape {s : List Char} (h : validNumRun s = true) :
    s = ['0'] ∨ (∃ c cs, s = c :: cs ∧ c ≠ '0') := by
  match s, h with
  | ['0'], _ => exact Or.inl rfl
  | c :: cs, h =>
    by_cases hc : c :: cs = ['0']
    · exact Or.inl hc
    · refine Or.inr ⟨c, cs, rfl, ?_⟩
      intro hc0
      subst hc0
      cases cs with
      | nil => exact hc rfl
      | cons e es => simp [validNumRun] at h

theorem digits_inj (s t : List Char)
    (hs : ∀ c ∈ s, isDigitC c = true) (ht : ∀ c ∈ t, isDigitC c = true)
    (hvs : validNumRun s = true) (hvt : validNumRun t = true)
    (h : toNatDigits s = toNatDigits t) : s = t := by
  rcases Nat.lt_trichotomy s.length t.length with hl | hl | hl
  · exfalso
    rcases validNumRun_shape hvt with h1 | ⟨d, ds, h1, h2⟩
    · subst h1
      have hs0 : s = [] := by
        apply List.length_eq_zero.mp
        simp only [List.length_cons, List.length_nil] at hl
        omega
      subst hs0
      simp [validNumRun] at hvs
    · subst h1
      have hge : 10 ^ ds.length ≤ toNatDigits (d :: ds) :=
        toNatDigits_head_ge d ds (ht d (List.mem_cons_self _ _)) h2
      have hlt : toNatDigits s < 10 ^ s.length := toNatDigits_lt s hs
      have hpow : 10 ^ s.length ≤ 10 ^ ds.length :=
        Nat.pow_le_pow_right (by omega) (by simp only [List.length_cons] at hl; omega)
      omega
  · exact digits_inj_len s t hl hs ht h
  · exfalso
    rcases validNumRun_shape hvs with h1 | ⟨d, ds, h1, h2⟩
    · subst h1
      have ht0 : t = [] := by
        apply List.length_eq_zero.mp
        simp only [List.length_cons, List.length_nil] at hl
        omega
      subst ht0
      simp [validNumRun] at hvt
    · subst h1
      have hge : 10 ^ ds.length ≤ toNatDigits (d :: ds) :=
        toNatDigits_head_ge d ds (hs d (List.mem_cons_self _ _)) h2
      have hlt : toNatDigits t < 10 ^ t.length := toNatDigits_lt t ht
      have hpow : 10 ^ t.length ≤ 10 ^ ds.length :=
        Nat.pow_le_pow_right (by omega) (by simp only [List.length_cons] at hl; omega)
      omega

theorem preIdLt_irrefl (a : PreId) : preIdLt a a = false := by
  cases a with
  | num n => rfl
  | str s => simp [preIdLt, strLtB_irrefl]

theorem preIdLt_trans {a b c : PreId} (h1 : preIdLt a b = true) (h2 : preIdLt b c = true) :
    preIdLt a c = true := by
  cases a with
  | num n => simp [preIdLt] at h1
  | str s =>
    cases b with
    | num m => simp [preIdLt] at h1
    | str t =>
      cases c with
      | num k => simp [preIdLt] at h2
      | str u =>
        simp only [preIdLt] at h1 h2 ⊢
        exact strLtB_trans _ _ _ h1 h2

/-- Shape of `compareIdentifiers` when both identifiers pass `numeric`:
the rounded (coerced) values decide. -/
theorem cmpId_shape_num {a b : PreId} (ha : preIdIsNum a = true) (hb : preIdIsNum b = true) :
    compareIdentifiers a b =
      if jsNumEq (jsRound (preIdVal a)) (jsRound (preIdVal b)) then 0
      else if jsNumLt (jsRound (preIdVal a)) (jsRound (preIdVal b)) then -1 else 1 := by
  simp [compareIdentifiers, ha, hb]

/-- Shape of `compareIdentifiers` when neither identifier passes `numeric`. -/
theorem cmpId_shape_str {a b : PreId} (ha : preIdIsNum a = false) (hb : preIdIsNum b = false) :
    compareIdentifiers a b =
      if a = b then 0 else if preIdLt a b then -1 else 1 := by
  simp [compareIdentifiers, ha, hb]

/-- A numeric identifier is strictly less than a non-numeric one. -/
theorem cmpId_shape_numStr {a b : PreId} (ha : preIdIsNum a = true) (hb : preIdIsNum b = false) :
    compareIdentifiers a b = -1 := by
  have hne : a ≠ b := by
    intro hh; subst hh; rw [ha] at hb; cases hb
  simp [compareIdentifiers, ha, hb, hne]

/-- A non-numeric identifier is strictly greater than a numeric one. -/
theorem cmpId_shape_strNum {a b : PreId} (ha : preIdIsNum a = false) (hb : preIdIsNum b = true) :
    compareIdentifiers a b = 1 := by
  have hne : a ≠ b := by
    intro hh; subst hh; rw [ha] at hb; cases hb
  simp [compareIdentifiers, ha, hb, hne]

/-- An identifier that passes `numeric` and coerces losslessly is a
numberified one. -/
theorem exactId_num {a : PreId} (hn : preIdIsNum a = true) (he : exactId a = true) :
    ∃ n, a = .num n := by
  cases a with
  | num n => exact ⟨n, rfl⟩
  | str s =>
    simp only [preIdIsNum] at hn
    simp only [exactId, hn] at he
    cases he

theorem validPreId_num_lt {n : Nat} (hv : validPreId (.num n) = true) : n < 2 ^ 53 := by
  simp only [validPreId, decide_eq_true_eq] at hv
  have hms : MAX_SAFE_INTEGER < 2 ^ 53 := by decide
  omega

/-- Below `2^53` the coercion is exact and `compareIdentifiers` on two
numberified identifiers is the plain numeric comparison. -/
theorem cmpId_num_num (x y : Nat) (hx : x < 2 ^ 53) (hy : y < 2 ^ 53) :
    compareIdentifiers (.num x) (.num y) =
      if x = y then 0 else if x < y then -1 else 1 := by
  rw [@cmpId_shape_num (.num x) (.num y) rfl rfl]
  simp only [preIdVal, jsRound_small hx, jsRound_small hy]
  by_cases he : x = y
  · subst he
    rw [if_pos (jsNumEq_refl (some x)), if_pos rfl]
  · rw [jsNumEq_false_of_ne (fun hh => he (Option.some.inj hh)), if_neg (by decide),
      if_neg he]
    by_cases hl : x < y
    · rw [if_pos (show jsNumLt (some x) (some y) = true from decide_eq_true hl),
        if_pos hl]
    · have hn : ¬jsNumLt (some x) (some y) = true := fun hh => hl (of_decide_eq_true hh)
      rw [if_neg hn, if_neg hl]

/-- Under the constructor invariant, distinct identifiers that both pass
`numeric` have distinct values. -/
theorem preIdVal_ne_of_ne {a b : PreId}
    (hva : validPreId a = true) (hvb : validPreId b = true)
    (ha : preIdIsNum a = true) (hb : preIdIsNum b = true)
    (hne : a ≠ b) : preIdVal a ≠ preIdVal b := by
  cases a with
  | num n =>
    cases b with
    | num m =>
      intro hv
      simp only [preIdVal] at hv
      exact hne (by rw [hv])
    | str t =>
      simp only [validPreId, decide_eq_true_eq] at hva
      simp only [preIdIsNum] at hb
      simp only [validPreId, hb, if_pos, Bool.and_eq_true, decide_eq_true_eq] at hvb
      simp only [preIdVal]
      omega
  | str s =>
    cases b with
    | num m =>
      simp only [validPreId, decide_eq_true_eq] at hvb
      simp only [preIdIsNum] at ha
      simp only [validPreId, ha, if_pos, Bool.and_eq_true, decide_eq_true_eq] at hva
      simp only [preIdVal]
      omega
    | str t =>
      intro hv
      simp only [preIdVal] at hv
      simp only [preIdIsNum] at ha hb
      have has : s.data.all isDigitC = true := by
        simp only [isNumericStr, Bool.and_eq_true] at ha
        exact ha.2
      have hbs : t.data.all isDigitC = true := by
        simp only [isNumericStr, Bool.and_eq_true] at hb
        exact hb.2
      simp only [validPreId, ha, hb, if_pos, Bool.and_eq_true, decide_eq_true_eq] at hva hvb
      have := digits_inj s.data t.data
        (fun c hc => List.all_eq_true.mp has c hc)
        (fun c hc => List.all_eq_true.mp hbs c hc)
        hva.1 hvb.1 hv
      exact hne (by rw [String.ext this])

/-- Under the constructor invariant and lossless coercion,
`compareIdentifiers` is zero exactly on equal identifiers.  (Without the
exactness hypotheses this is false: two distinct all-digit strings at or
above `MAX_SAFE_INTEGER` can round to the same double and compare `0`.) -/
theorem cmpId_eq_zero_iff {a b : PreId}
    (hva : validPreId a = true) (hvb : validPreId b = true)
    (hea : exactId a = true) (heb : exactId b = true) :
    compareIdentifiers a b = 0 ↔ a = b := by
  constructor
  · intro h
    by_contra hne
    cases ha : preIdIsNum a <;> cases hb : preIdIsNum b
    · rw [cmpId_shape_str ha hb, if_neg hne] at h
      split at h <;> simp at h
    · rw [cmpId_shape_strNum ha hb] at h
      simp at h
    · rw [cmpId_shape_numStr ha hb] at h
      simp at h
    · rcases exactId_num ha hea with ⟨n, rfl⟩
      rcases exactId_num hb heb with ⟨m, rfl⟩
      rw [cmpId_num_num n m (validPreId_num_lt hva) (validPreId_num_lt hvb),
        if_neg (fun hh => hne (by rw [hh]))] at h
      split at h <;> simp at h
  · intro h
    subst h
    exact cmpId_self a

/-- `compareIdentifiers` is strictly negative exactly in these three cases
(numeric identifiers by their rounded values). -/
theorem cmpId_lt_iff (a b : PreId) : compareIdentifiers a b < 0 ↔
    ((preIdIsNum a = true ∧ preIdIsNum b = true ∧
        jsNumLt (jsRound (preIdVal a)) (jsRound (preIdVal b)) = true) ∨
     (preIdIsNum a = true ∧ preIdIsNum b = false) ∨
     (preIdIsNum a = false ∧ preIdIsNum b = false ∧ preIdLt a b = true)) := by
  constructor
  · intro h
    cases ha : preIdIsNum a <;> cases hb : preIdIsNum b
    · rw [cmpId_shape_str ha hb] at h
      right; right
      refine ⟨rfl, rfl, ?_⟩
      by_cases heq : a = b
      · rw [if_pos heq] at h; omega
      · rw [if_neg heq] at h
        by_cases hlt : preIdLt a b
        · exact hlt
        · rw [if_neg hlt] at h; omega
    · rw [cmpId_shape_strNum ha hb] at h
      omega
    · right; left; exact ⟨rfl, rfl⟩
    · rw [cmpId_shape_num ha hb] at h
      left
      refine ⟨rfl, rfl, ?_⟩
      by_cases hv : jsNumEq (jsRound (preIdVal a)) (jsRound (preIdVal b)) = true
      · rw [if_pos hv] at h; omega
      · rw [if_neg hv] at h
        by_cases hlt : jsNumLt (jsRound (preIdVal a)) (jsRound (preIdVal b)) = true
        · exact hlt
        · rw [if_neg hlt] at h; omega
  · intro h
    rcases h with ⟨ha, hb, hv⟩ | ⟨ha, hb⟩ | ⟨ha, hb, hlt⟩
    · rw [cmpId_shape_num ha hb, jsNumEq_false_of_ne (jsNumLt_ne hv), if_neg (by decide),
        if_pos hv]
      omega
    · rw [cmpId_shape_numStr ha hb]
      omega
    · have hne : a ≠ b := by
        intro hh; subst hh
        rw [preIdLt_irrefl] at hlt
        cases hlt
      rw [cmpId_shape_str ha hb, if_neg hne, if_pos hlt]
      omega

theorem cmpId_lt_trans {a b c : PreId}
    (h1 : compareIdentifiers a b < 0) (h2 : compareIdentifiers b c < 0) :
    compareIdentifiers a c < 0 := by
  rw [cmpId_lt_iff] at h1 h2 ⊢
  rcases h1 with ⟨ha, hb, hv⟩ | ⟨ha, hb⟩ | ⟨ha, hb, hlt⟩
  · rcases h2 with ⟨_, hc, hv2⟩ | ⟨_, hc⟩ | ⟨hb', _, _⟩
    · exact Or.inl ⟨ha, hc, jsNumLt_trans hv hv2⟩
    · exact Or.inr (Or.inl ⟨ha, hc⟩)
    · rw [hb] at hb'; cases hb'
  · rcases h2 with ⟨hb', _, _⟩ | ⟨hb', _⟩ | ⟨_, hc, hlt2⟩
    · rw [hb] at hb'; cases hb'
    · rw [hb] at hb'; cases hb'
    · exact Or.inr (Or.inl ⟨ha, hc⟩)
  · rcases h2 with ⟨hb', _, _⟩ | ⟨hb', _⟩ | ⟨_, hc, hlt2⟩
    · rw [hb] at hb'; cases hb'
    · rw [hb] at hb'; cases hb'
    · exact Or.inr (Or.inr ⟨ha, hc, preIdLt_trans hlt hlt2⟩)

theorem loop_self (l : List PreId) : comparePreLoop l l = 0 := by
  induction l with
  | nil => rfl
  | cons a as ih => simp [comparePreLoop, ih]

theorem loop_neg : ∀ l1 l2 : List PreId, comparePreLoop l1 l2 = -comparePreLoop l2 l1 := by
  intro l1
  induction l1 with
  | nil =>
    intro l2
    cases l2 with
    | nil => rfl
    | cons b bs => rfl
  | cons a as ih =>
    intro l2
    cases l2 with
    | nil => rfl
    | cons b bs =>
      by_cases h : a = b
      · subst h
        simp [comparePreLoop, ih bs]
      · have h' : ¬b = a := fun hh => h hh.symm
        simp only [comparePreLoop, if_neg h, if_neg h']
        exact cmpId_neg a b

theorem loop_mem : ∀ l1 l2 : List PreId,
    comparePreLoop l1 l2 = -1 ∨ comparePreLoop l1 l2 = 0 ∨ comparePreLoop l1 l2 = 1 := by
  intro l1
  induction l1 with
  | nil =>
    intro l2
    cases l2 with
    | nil => right; left; rfl
    | cons b bs => left; rfl
  | cons a as ih =>
    intro l2
    cases l2 with
    | nil => right; right; rfl
    | cons b bs =>
      by_cases h : a = b
      · subst h; simpa [comparePreLoop] using ih bs
      · simpa [comparePreLoop, if_neg h] using cmpId_mem a b

theorem loop_zero_iff : ∀ l1 l2 : List PreId,
    l1.all validPreId = true → l2.all validPreId = true →
    l1.all exactId = true → l2.all exactId = true →
    (comparePreLoop l1 l2 = 0 ↔ l1 = l2) := by
  intro l1
  induction l1 with
  | nil =>
    intro l2 _ _ _ _
    cases l2 with
    | nil => simp [comparePreLoop]
    | cons b bs => simp [comparePreLoop]
  | cons a as ih =>
    intro l2 hv1 hv2 he1 he2
    cases l2 with
    | nil => simp [comparePreLoop]
    | cons b bs =>
      simp only [List.all_cons, Bool.and_eq_true] at hv1 hv2 he1 he2
      by_cases h : a = b
      · subst h
        have hstep : comparePreLoop (a :: as) (a :: bs) = comparePreLoop as bs := by
          simp [comparePreLoop]
        rw [hstep, ih bs hv1.2 hv2.2 he1.2 he2.2]
        simp
      · simp only [comparePreLoop, if_neg h]
        constructor
        · intro hz
          exact absurd ((cmpId_eq_zero_iff hv1.1 hv2.1 he1.1 he2.1).mp hz) h
        · intro hh
          injection hh with h1 h2
          exact absurd h1 h

theorem loop_lt_trans : ∀ l1 l2 l3 : List PreId,
    comparePreLoop l1 l2 < 0 → comparePreLoop l2 l3 < 0 → comparePreLoop l1 l3 < 0 := by
  intro l1
  induction l1 with
  | nil =>
    intro l2 l3 h1 h2
    cases l2 with
    | nil => simp [comparePreLoop] at h1
    | cons b bs =>
      cases l3 with
      | nil => simp [comparePreLoop] at h2
      | cons c cs => simp [comparePreLoop]
  | cons a as ih =>
    intro l2 l3 h1 h2
    cases l2 with
    | nil => simp [comparePreLoop] at h1
    | cons b bs =>
      cases l3 with
      | nil => simp [comparePreLoop] at h2
      | cons c cs =>
        simp only [comparePreLoop] at h1 h2 ⊢
        by_cases hab : a = b
        · subst hab
          rw [if_pos rfl] at h1
          by_cases hac : a = c
          · subst hac
            rw [if_pos rfl] at h2 ⊢
            exact ih bs cs h1 h2
          · rw [if_neg hac] at h2 ⊢
            exact h2
        · rw [if_neg hab] at h1
          by_cases hbc : b = c
          · subst hbc
            have hac : a ≠ b := hab
            rw [if_neg hac]
            exact h1
          · rw [if_neg hbc] at h2
            have hlt : compareIdentifiers a c < 0 := cmpId_lt_trans h1 h2
            have hac : a ≠ c := by
              intro hh; subst hh
              rw [cmpId_self] at hlt
              omega
            rw [if_neg hac]
            exact hlt

/-- `comparePre` case shape. -/
theorem comparePre_cases (a b : SemVer) : comparePre a b =
    match a.prerelease, b.prerelease with
    | [], [] => 0
    | _ :: _, [] => -1
    | [], _ :: _ => 1
    | _ :: _, _ :: _ => comparePreLoop a.prerelease b.prerelease := by
  rcases ha : a.prerelease with _ | ⟨x, xs⟩ <;> rcases hb : b.prerelease with _ | ⟨y, ys⟩ <;>
    simp [comparePre, ha, hb]

theorem comparePre_neg (a b : SemVer) : comparePre a b = -comparePre b a := by
  rw [comparePre_cases, comparePre_cases]
  rcases ha : a.prerelease with _ | ⟨x, xs⟩ <;> rcases hb : b.prerelease with _ | ⟨y, ys⟩
  · rfl
  · rfl
  · rfl
  · simpa using loop_neg (x :: xs) (y :: ys)

theorem comparePre_self (a : SemVer) : comparePre a a = 0 := by
  rw [comparePre_cases]
  rcases ha : a.prerelease with _ | ⟨x, xs⟩
  · rfl
  · simpa using loop_self (x :: xs)

theorem comparePre_mem (a b : SemVer) :
    comparePre a b = -1 ∨ comparePre a b = 0 ∨ comparePre a b = 1 := by
  rw [comparePre_cases]
  rcases ha : a.prerelease with _ | ⟨x, xs⟩ <;> rcases hb : b.prerelease with _ | ⟨y, ys⟩
  · right; left; rfl
  · right; right; rfl
  · left; rfl
  · simpa using loop_mem (x :: xs) (y :: ys)

theorem comparePre_zero_iff {a b : SemVer}
    (h1 : a.prerelease.all validPreId = true) (h2 : b.prerelease.all validPreId = true)
    (he1 : a.prerelease.all exactId = true) (he2 : b.prerelease.all exactId = true) :
    comparePre a b = 0 ↔ a.prerelease = b.prerelease := by
  rw [comparePre_cases]
  rcases ha : a.prerelease with _ | ⟨x, xs⟩ <;> rcases hb : b.prerelease with _ | ⟨y, ys⟩
  · simp
  · simp
  · simp
  · rw [ha] at h1 he1
    rw [hb] at h2 he2
    simpa using loop_zero_iff (x :: xs) (y :: ys) h1 h2 he1 he2

theorem comparePre_lt_trans {a b c : SemVer}
    (h1 : comparePre a b < 0) (h2 : comparePre b c < 0) : comparePre a c < 0 := by
  rw [comparePre_cases] at h1 h2 ⊢
  rcases ha : a.prerelease with _ | ⟨x, xs⟩ <;> rcases hb : b.prerelease with _ | ⟨y, ys⟩ <;>
    rcases hc : c.prerelease with _ | ⟨z, zs⟩ <;>
      simp only [ha, hb, hc] at h1 h2 ⊢ <;> try omega
  exact loop_lt_trans _ _ _ h1 h2

theorem jsOrInt_zero_iff (x y : Int) : jsOrInt x y = 0 ↔ x = 0 ∧ y = 0 := by
  unfold jsOrInt
  split <;> simp_all

theorem jsOrInt_lt_iff (x y : Int) : jsOrInt x y < 0 ↔ x < 0 ∨ (x = 0 ∧ y < 0) := by
  unfold jsOrInt
  split <;> simp_all <;> omega

theorem jsOrInt_neg {x y x2 y2 : Int} (hx : x = -x2) (hy : y = -y2) :
    jsOrInt x y = -jsOrInt x2 y2 := by
  unfold jsOrInt
  by_cases h : x2 = 0
  · subst h
    simp at hx
    simp [hx, hy]
  · have hx0 : ¬x = 0 := by omega
    rw [if_neg hx0, if_neg h]
    exact hx

theorem ordE_zero_iff (o1 o2 : Option Nat) :
    ((if jsNumEq o1 o2 = true then (0 : Int)
      else if jsNumLt o1 o2 = true then -1 else 1) = 0) ↔ o1 = o2 := by
  by_cases he : jsNumEq o1 o2 = true
  · have ho : o1 = o2 := (jsNumEq_iff o1 o2).mp he
    subst ho
    rw [if_pos (jsNumEq_refl o1)]
    simp
  · rw [if_neg he]
    constructor
    · intro h
      split at h <;> simp at h
    · intro h
      rw [(jsNumEq_iff o1 o2).mpr h] at he
      exact absurd rfl he

theorem ordE_lt_iff (o1 o2 : Option Nat) :
    ((if jsNumEq o1 o2 = true then (0 : Int)
      else if jsNumLt o1 o2 = true then -1 else 1) < 0) ↔ jsNumLt o1 o2 = true := by
  by_cases he : jsNumEq o1 o2 = true
  · have ho : o1 = o2 := (jsNumEq_iff o1 o2).mp he
    subst ho
    rw [if_pos he, jsNumLt_irrefl]
    simp
  · rw [if_neg he]
    by_cases hl : jsNumLt o1 o2 = true
    · rw [if_pos hl, hl]
      simp
    · rw [if_neg hl]
      simp [hl]

/-- `compareMain` in terms of the rounded main components. -/
theorem compareMain_shape (a b : SemVer) : compareMain a b =
    jsOrInt (if jsNumEq (jsRound a.major) (jsRound b.major) then 0
             else if jsNumLt (jsRound a.major) (jsRound b.major) then -1 else 1)
      (jsOrInt (if jsNumEq (jsRound a.minor) (jsRound b.minor) then 0
                else if jsNumLt (jsRound a.minor) (jsRound b.minor) then -1 else 1)
        (if jsNumEq (jsRound a.patch) (jsRound b.patch) then 0
         else if jsNumLt (jsRound a.patch) (jsRound b.patch) then -1 else 1)) := by
  unfold compareMain
  rw [@cmpId_shape_num (.num a.major) (.num b.major) rfl rfl,
    @cmpId_shape_num (.num a.minor) (.num b.minor) rfl rfl,
    @cmpId_shape_num (.num a.patch) (.num b.patch) rfl rfl]
  rfl

theorem compareMain_zero_iff_rounds (a b : SemVer) : compareMain a b = 0 ↔
    (jsRound a.major = jsRound b.major ∧ jsRound a.minor = jsRound b.minor ∧
     jsRound a.patch = jsRound b.patch) := by
  rw [compareMain_shape, jsOrInt_zero_iff, jsOrInt_zero_iff, ordE_zero_iff,
    ordE_zero_iff, ordE_zero_iff]

theorem compareMain_lt_iff_rounds (a b : SemVer) : compareMain a b < 0 ↔
    (jsNumLt (jsRound a.major) (jsRound b.major) = true ∨
     (jsRound a.major = jsRound b.major ∧
       (jsNumLt (jsRound a.minor) (jsRound b.minor) = true ∨
        (jsRound a.minor = jsRound b.minor ∧
         jsNumLt (jsRound a.patch) (jsRound b.patch) = true)))) := by
  rw [compareMain_shape, jsOrInt_lt_iff, jsOrInt_lt_iff, ordE_zero_iff, ordE_zero_iff,
    ordE_lt_iff, ordE_lt_iff, ordE_lt_iff]

theorem compareMain_zero_of_eq {a b : SemVer} (h1 : a.major = b.major)
    (h2 : a.minor = b.minor) (h3 : a.patch = b.patch) : compareMain a b = 0 := by
  rw [compareMain_zero_iff_rounds, h1, h2, h3]
  exact ⟨rfl, rfl, rfl⟩

/-- With main components in the exact double range (true of every
constructed version), `compareMain` is zero exactly on equal triples. -/
theorem compareMain_eq_zero_iff {a b : SemVer}
    (hea : mainExact a = true) (heb : mainExact b = true) : compareMain a b = 0 ↔
    a.major = b.major ∧ a.minor = b.minor ∧ a.patch = b.patch := by
  simp only [mainExact, Bool.and_eq_true, decide_eq_true_eq] at hea heb
  rw [compareMain_zero_iff_rounds, jsRound_small hea.1.1, jsRound_small heb.1.1,
    jsRound_small hea.1.2, jsRound_small heb.1.2, jsRound_small hea.2,
    jsRound_small heb.2]
  simp

theorem compareMain_neg (a b : SemVer) : compareMain a b = -compareMain b a := by
  unfold compareMain
  apply jsOrInt_neg
  · rw [cmpId_neg]
  · apply jsOrInt_neg
    · rw [cmpId_neg]
    · rw [cmpId_neg]

theorem compareMain_self (a : SemVer) : compareMain a a = 0 :=
  compareMain_zero_of_eq rfl rfl rfl

theorem compareSemVer_neg (a b : SemVer) : compareSemVer a b = -compareSemVer b a := by
  unfold compareSemVer
  exact jsOrInt_neg (compareMain_neg a b) (comparePre_neg a b)

theorem compareSemVer_self (a : SemVer) : compareSemVer a a = 0 := by
  unfold compareSemVer
  rw [jsOrInt_zero_iff]
  exact ⟨compareMain_self a, comparePre_self a⟩

theorem compareSemVer_mem (a b : SemVer) :
    compareSemVer a b = -1 ∨ compareSemVer a b = 0 ∨ compareSemVer a b = 1 := by
  have hm : compareMain a b = -1 ∨ compareMain a b = 0 ∨ compareMain a b = 1 := by
    unfold compareMain jsOrInt
    split
    · split
      · exact cmpId_mem _ _
      · exact cmpId_mem _ _
    · exact cmpId_mem _ _
  unfold compareSemVer jsOrInt
  split
  · exact comparePre_mem a b
  · exact hm

/-- With lossless coercions on both sides, `compare` is zero exactly on
structural equality of the compared fields.  (Without exactness two
versions with distinct huge all-digit prerelease identifiers can compare
`0`.) -/
theorem compareSemVer_zero_iff {a b : SemVer}
    (h1 : validSemVer a = true) (h2 : validSemVer b = true)
    (he1 : exactSemVer a = true) (he2 : exactSemVer b = true) :
    compareSemVer a b = 0 ↔
      (a.major = b.major ∧ a.minor = b.minor ∧ a.patch = b.patch ∧
       a.prerelease = b.prerelease) := by
  simp only [exactSemVer, Bool.and_eq_true] at he1 he2
  unfold compareSemVer
  rw [jsOrInt_zero_iff, compareMain_eq_zero_iff he1.1 he2.1,
    comparePre_zero_iff h1 h2 he1.2 he2.2]
  tauto

/-- Strict `compare` is transitive with no exactness hypotheses: a tie of
the main comparison means the rounded triples agree and transports the
other strict comparison by congruence; the prerelease loop returns at the
first raw-differing position, where the identifier comparison is itself a
strict order on rounded keys. -/
theorem compareSemVer_lt_trans {a b c : SemVer}
    (h1 : compareSemVer a b < 0) (h2 : compareSemVer b c < 0) :
    compareSemVer a c < 0 := by
  unfold compareSemVer at h1 h2 ⊢
  rw [jsOrInt_lt_iff] at h1 h2 ⊢
  rcases h1 with h1 | ⟨h1z, h1p⟩
  · rcases h2 with h2 | ⟨h2z, h2p⟩
    · left
      rw [compareMain_lt_iff_rounds] at h1 h2 ⊢
      rcases h1 with h1 | ⟨e1, h1p⟩
      · rcases h2 with h2 | ⟨e2, h2p⟩
        · exact Or.inl (jsNumLt_trans h1 h2)
        · rw [← e2]
          exact Or.inl h1
      · rcases h2 with h2 | ⟨e2, h2p⟩
        · rw [e1]
          exact Or.inl h2
        · refine Or.inr ⟨e1.trans e2, ?_⟩
          rcases h1p with h1 | ⟨f1, h1p⟩
          · rcases h2p with h2 | ⟨f2, h2p⟩
            · exact Or.inl (jsNumLt_trans h1 h2)
            · rw [← f2]
              exact Or.inl h1
          · rcases h2p with h2 | ⟨f2, h2p⟩
            · rw [f1]
              exact Or.inl h2
            · exact Or.inr ⟨f1.trans f2, jsNumLt_trans h1p h2p⟩
    · left
      rw [compareMain_zero_iff_rounds] at h2z
      rw [compareMain_lt_iff_rounds] at h1 ⊢
      rw [← h2z.1, ← h2z.2.1, ← h2z.2.2]
      exact h1
  · rcases h2 with h2 | ⟨h2z, h2p⟩
    · left
      rw [compareMain_zero_iff_rounds] at h1z
      rw [compareMain_lt_iff_rounds] at h2 ⊢
      rw [h1z.1, h1z.2.1, h1z.2.2]
      exact h2
    · right
      rw [compareMain_zero_iff_rounds] at h1z h2z ⊢
      exact ⟨⟨h1z.1.trans h2z.1, h1z.2.1.trans h2z.2.1, h1z.2.2.trans h2z.2.2⟩,
        comparePre_lt_trans h1p h2p⟩

/-- The strict part of `compare` in the other direction: `x > y > z`
implies `x > z`. -/
theorem compareSemVer_one_trans {a b c : SemVer}
    (h1 : compareSemVer a b = 1) (h2 : compareSemVer b c = 1) :
    compareSemVer a c = 1 := by
  have hb1 : compareSemVer b a < 0 := by
    rw [compareSemVer_neg b a, h1]
    omega
  have hc1 : compareSemVer c b < 0 := by
    rw [compareSemVer_neg c b, h2]
    omega
  have hca := compareSemVer_lt_trans hc1 hb1
  rcases compareSemVer_mem c a with hm | hm | hm
  · rw [compareSemVer_neg a c, hm]
    omega
  · rw [hm] at hca
    omega
  · rw [hm] at hca
    omega

/-! ## The constructor only produces valid prerelease identifiers -/

theorem mkPreId_valid (id : List Char) (hne : id ≠ [])
    (hnum : id.all isDigitC = true → validNumRun id = true) :
    validPreId (mkPreId id) = true := by
  unfold mkPreId
  by_cases hd : id.all isDigitC
  · have hguard : (!id.isEmpty && id.all isDigitC) = true := by
      simp [List.isEmpty_eq_false_iff_exists_mem.mpr, hd]
      cases id with
      | nil => exact absurd rfl hne
      | cons c cs => simp
    rw [if_pos hguard]
    by_cases hlt : toNatDigits id < MAX_SAFE_INTEGER
    · rw [if_pos hlt]
      simpa [validPreId] using hlt
    · rw [if_neg hlt]
      have hns : isNumericStr ⟨id⟩ = true := by
        simp only [isNumericStr]
        cases id with
        | nil => exact absurd rfl hne
        | cons c cs => simpa using hd
      simp only [validPreId, hns, if_pos, Bool.and_eq_true, decide_eq_true_eq]
      exact ⟨hnum hd, by omega⟩
  · have hguard : ¬(!id.isEmpty && id.all isDigitC) = true := by
      simp only [Bool.and_eq_true]
      intro ⟨_, hh⟩
      exact hd hh
    rw [if_neg hguard]
    have hns : isNumericStr ⟨id⟩ = false := by
      simp only [isNumericStr]
      cases hdd : (⟨id⟩ : String).data.all isDigitC
      · simp
      · exact absurd hdd hd
    simp [validPreId, hns]

theorem parsePreId_sound {cs id r : List Char} (h : parsePreId cs = some (id, r)) :
    id ≠ [] ∧ (id.all isDigitC = true → validNumRun id = true) := by
  simp only [parsePreId] at h
  split at h
  · cases h
  · split at h
    · cases h
    · injection h with h'
      injection h' with h1 h2
      subst h1
      constructor
      · intro hh
        rename_i hemp _
        rw [hh] at hemp
        simp at hemp
      · intro hd
        rename_i hguard
        by_cases hv : validNumRun (cs.takeWhile isIdChar) = true
        · exact hv
        · exfalso
          have hvv : validNumRun (cs.takeWhile isIdChar) = false := by
            cases hx : validNumRun (cs.takeWhile isIdChar)
            · rfl
            · exact absurd hx hv
          apply hguard
          simp [hd, hvv]

theorem dottedLoop_mem (pid : List Char → Option (List Char × List Char))
    (P : List Char → Prop)
    (hp : ∀ cs id r, pid cs = some (id, r) → P id) :
    ∀ fuel acc rest, (∀ id ∈ acc, P id) →
      ∀ id ∈ (dottedLoop pid fuel acc rest).1, P id := by
  intro fuel
  induction fuel with
  | zero =>
    intro acc rest hacc id hid
    simp only [dottedLoop] at hid
    exact hacc id (List.mem_reverse.mp hid)
  | succ fuel ih =>
    intro acc rest hacc id hid
    simp only [dottedLoop] at hid
    split at hid
    · split at hid
      · rename_i heq
        refine ih _ _ ?_ id hid
        intro x hx
        rcases List.mem_cons.mp hx with hx1 | hx2
        · subst hx1
          exact hp _ _ _ heq
        · exact hacc x hx2
      · exact hacc id (List.mem_reverse.mp hid)
    · exact hacc id (List.mem_reverse.mp hid)

theorem parseDotted_mem (pid : List Char → Option (List Char × List Char))
    (P : List Char → Prop)
    (hp : ∀ cs id r, pid cs = some (id, r) → P id) :
    ∀ cs ids r, parseDotted pid cs = some (ids, r) → ∀ id ∈ ids, P id := by
  intro cs ids r h id hid
  simp only [parseDotted] at h
  split at h
  · cases h
  · rename_i id0 rest heq
    injection h with h'
    injection h' with h1 h2
    subst h1
    refine dottedLoop_mem pid P hp rest.length [id0] rest ?_ id hid
    intro x hx
    rcases List.mem_cons.mp hx with hx1 | hx2
    · subst hx1
      exact hp _ _ _ heq
    · simp at hx2

theorem parseFullPlain_pre {cs : List Char} {p : FullParts} {r : List Char}
    (h : parseFullPlain cs = some (p, r)) :
    ∀ id ∈ p.pre, id ≠ [] ∧ (id.all isDigitC = true → validNumRun id = true) := by
  simp only [parseFullPlain] at h
  split at h
  · cases h
  · split at h
    · split at h
      · cases h
      · split at h
        · split at h
          · cases h
          · -- all three main components parsed; inspect the optional groups
            injection h with h'
            injection h' with h1 h2
            subst h1
            intro id hid
            simp only at hid
            -- the pre component is [] or the ids of `parseDotted parsePreId`
            split at hid
            · split at hid
              · rename_i hdot
                exact parseDotted_mem parsePreId _
                  (fun cs2 id2 r2 hh => parsePreId_sound hh) _ _ _ hdot id hid
              · simp at hid
            · simp at hid
        · cases h
    · cases h

theorem newSemVer_valid {s : String} {a : SemVer} (h : newSemVer s = .ok a) :
    validSemVer a = true := by
  unfold newSemVer at h
  split at h
  · cases h
  · split at h
    · rename_i p hp
      split at h
      · cases h
      · split at h
        · cases h
        · split at h
          · cases h
          · injection h with h'
            subst h'
            simp only [validSemVer, List.all_eq_true]
            intro id hid
            rcases List.mem_map.mp hid with ⟨raw, hraw, hmk⟩
            have hs := parseFullPlain_pre hp raw hraw
            rw [← hmk]
            exact mkPreId_valid raw hs.1 hs.2
    · cases h

/-! ## Relating the code comparison to the spec wording (C1) -/

theorem specCmpId_eq {a b : PreId} (hva : validPreId a = true) (hvb : validPreId b = true)
    (hea : exactId a = true) (heb : exactId b = true) :
    specCmpId a b = compareIdentifiers a b := by
  cases ha : preIdIsNum a <;> cases hb : preIdIsNum b
  · rw [cmpId_shape_str ha hb]
    by_cases heq : a = b
    · subst heq
      simp [specCmpId, ha, preIdLt_irrefl]
    · have hne : (a : PreId) ≠ b := heq
      cases a with
      | num n => simp [preIdIsNum] at ha
      | str s =>
        cases b with
        | num m => simp [preIdIsNum] at hb
        | str t =>
          have hst : s.data ≠ t.data := by
            intro hh
            exact hne (by rw [String.ext hh])
          rw [if_neg hne]
          rcases strLtB_total s.data t.data hst with hl | hl
          · simp [specCmpId, ha, hb, preIdLt, hl]
          · have hnl : strLtB s.data t.data = false := strLtB_asymm _ _ hl
            simp [specCmpId, ha, hb, preIdLt, hl, hnl]
  · rw [cmpId_shape_strNum ha hb]
    simp [specCmpId, ha, hb]
  · rw [cmpId_shape_numStr ha hb]
    simp [specCmpId, ha, hb]
  · rcases exactId_num ha hea with ⟨n, rfl⟩
    rcases exactId_num hb heb with ⟨m, rfl⟩
    rw [cmpId_num_num n m (validPreId_num_lt hva) (validPreId_num_lt hvb)]
    rcases Nat.lt_trichotomy n m with h | h | h
    · simp [specCmpId, preIdIsNum, preIdVal, h, Nat.ne_of_lt h]
    · subst h
      simp [specCmpId, preIdIsNum, preIdVal, Nat.lt_irrefl]
    · have h1 : ¬n < m := Nat.lt_asymm h
      simp [specCmpId, preIdIsNum, preIdVal, h, h1, Nat.ne_of_gt h]

theorem loop_eq_spec : ∀ l1 l2 : List PreId,
    l1.all validPreId = true → l2.all validPreId = true →
    l1.all exactId = true → l2.all exactId = true →
    comparePreLoop l1 l2 = specPreOrderLoop l1 l2 := by
  intro l1
  induction l1 with
  | nil =>
    intro l2 _ _ _ _
    cases l2 <;> rfl
  | cons a as ih =>
    intro l2 hv1 hv2 he1 he2
    cases l2 with
    | nil => rfl
    | cons b bs =>
      simp only [List.all_cons, Bool.and_eq_true] at hv1 hv2 he1 he2
      by_cases h : a = b
      · subst h
        have hz : specCmpId a a = 0 := by
          rw [specCmpId_eq hv1.1 hv1.1 he1.1 he1.1, cmpId_self]
        simp only [comparePreLoop, specPreOrderLoop, if_pos rfl, if_pos hz]
        exact ih bs hv1.2 hv2.2 he1.2 he2.2
      · have hnz : compareIdentifiers a b ≠ 0 := by
          intro hh
          exact h ((cmpId_eq_zero_iff hv1.1 hv2.1 he1.1 he2.1).mp hh)
        have hsnz : specCmpId a b = compareIdentifiers a b :=
          specCmpId_eq hv1.1 hv2.1 he1.1 he2.1
        simp only [comparePreLoop, specPreOrderLoop, if_neg h, hsnz, if_neg hnz]

theorem comparePre_eq_spec {a b : SemVer}
    (h1 : a.prerelease.all validPreId = true) (h2 : b.prerelease.all validPreId = true)
    (he1 : a.prerelease.all exactId = true) (he2 : b.prerelease.all exactId = true) :
    comparePre a b = specPreOrder a.prerelease b.prerelease := by
  rw [comparePre_cases]
  rcases ha : a.prerelease with _ | ⟨x, xs⟩ <;> rcases hb : b.prerelease with _ | ⟨y, ys⟩
  · rfl
  · rfl
  · rfl
  · rw [ha] at h1 he1
    rw [hb] at h2 he2
    simp only [specPreOrder]
    rw [if_neg (by simp), if_neg (by simp), if_neg (by simp)]
    exact loop_eq_spec (x :: xs) (y :: ys) h1 h2 he1 he2

/-- C1 counterexample: the `+a` coercion in `compareIdentifiers` rounds
all-digit identifiers to doubles, so the two distinct prerelease
identifiers `9007199254740993` and `9007199254740992` (both kept as
strings by the constructor, both rounding to `2^53`) compare `0` in the
program, while the spec's numeric rule (`specPreOrder`) gives `1`. -/
theorem C1_counterexample :
    compareStr "1.0.0-9007199254740993" "1.0.0-9007199254740992" = .ok 0 ∧
    specPreOrder [.str "9007199254740993"] [.str "9007199254740992"] = 1 := by
  exact ⟨by decide, by decide⟩

/-- C1 amended: for parsed versions with equal `major.minor.patch` whose
prerelease identifiers all coerce to doubles losslessly (no all-digit
identifier at or above `MAX_SAFE_INTEGER`), `compare` orders them by the
spec's prerelease rule (non-empty prerelease sorts strictly before empty;
both empty compare as 0; otherwise identifiers are compared left to right,
numeric identifiers numerically, non-numeric lexically, numeric always
below non-numeric, and a proper prefix sorts first), together with the
spec's concrete ordering examples. -/
theorem C1_prerelease_rule :
    (∀ a b : SemVer, validSemVer a = true → validSemVer b = true →
      exactSemVer a = true → exactSemVer b = true →
      a.major = b.major → a.minor = b.minor → a.patch = b.patch →
      compareSemVer a b = specPreOrder a.prerelease b.prerelease) ∧
    ltStr "1.0.0-alpha" "1.0.0-alpha.1" = .ok true ∧
    ltStr "1.0.0-alpha.1" "1.0.0-alpha.beta" = .ok true ∧
    ltStr "1.0.0-1" "1.0.0-2" = .ok true := by
  refine ⟨?_, by decide, by decide, by decide⟩
  intro a b hva hvb hea heb h1 h2 h3
  have hm : compareMain a b = 0 := compareMain_zero_of_eq h1 h2 h3
  unfold compareSemVer
  rw [hm]
  unfold jsOrInt
  rw [if_pos rfl]
  simp only [exactSemVer, Bool.and_eq_true] at hea heb
  exact comparePre_eq_spec hva hvb hea.2 heb.2

/-- Witness for C1 at a concrete pair of versions. -/
theorem C1_witness :
    compareSemVer ⟨1, 0, 0, [.str "alpha"], []⟩ ⟨1, 0, 0, [], []⟩ =
      specPreOrder [.str "alpha"] [] :=
  C1_prerelease_rule.1 ⟨1, 0, 0, [.str "alpha"], []⟩ ⟨1, 0, 0, [], []⟩
    (by decide) (by decide) (by decide) (by decide) rfl rfl rfl

/-- C2 counterexample to transitivity of `compare`-equality: between `a`
and `b`, and between `b` and `c`, the first prerelease identifiers
raw-differ but their rounded doubles collide, so both comparisons return
`0` before ever reaching the differing tails; `a` and `c` share the first
identifier raw, so their comparison proceeds to the tails and returns
`-1`. -/
theorem C2_counterexample :
    compareStr "1.0.0-9007199254740992.1" "1.0.0-9007199254740993.2" = .ok 0 ∧
    compareStr "1.0.0-9007199254740993.2" "1.0.0-9007199254740992.3" = .ok 0 ∧
    compareStr "1.0.0-9007199254740992.1" "1.0.0-9007199254740992.3" = .ok (-1) := by
  exact ⟨by decide, by decide, by decide⟩

/-- C2 amended: `compare` is antisymmetric and never consults build
metadata; equality under `compare` is transitive for parsed versions whose
number coercions are lossless (no all-digit prerelease identifier at or
above `MAX_SAFE_INTEGER`). -/
theorem C2_compare_total_order :
    (∀ a b : SemVer, validSemVer a = true → validSemVer b = true →
      compareSemVer a b = -compareSemVer b a) ∧
    (∀ a b c : SemVer, validSemVer a = true → validSemVer b = true →
      validSemVer c = true →
      exactSemVer a = true → exactSemVer b = true → exactSemVer c = true →
      compareSemVer a b = 0 → compareSemVer b c = 0 →
      compareSemVer a c = 0) ∧
    (∀ a b : SemVer, a.major = b.major → a.minor = b.minor → a.patch = b.patch →
      a.prerelease = b.prerelease → compareSemVer a b = 0) ∧
    compareStr "1.0.0+a" "1.0.0+b" = .ok 0 := by
  refine ⟨?_, ?_, ?_, by decide⟩
  · intro a b _ _
    exact compareSemVer_neg a b
  · intro a b c hva hvb hvc hea heb hec h1 h2
    have e1 := (compareSemVer_zero_iff hva hvb hea heb).mp h1
    have e2 := (compareSemVer_zero_iff hvb hvc heb hec).mp h2
    exact (compareSemVer_zero_iff hva hvc hea hec).mpr
      ⟨e1.1.trans e2.1, e1.2.1.trans e2.2.1, e1.2.2.1.trans e2.2.2.1,
       e1.2.2.2.trans e2.2.2.2⟩
  · intro a b h1 h2 h3 h4
    unfold compareSemVer
    rw [jsOrInt_zero_iff]
    refine ⟨compareMain_zero_of_eq h1 h2 h3, ?_⟩
    rw [comparePre_cases, h4]
    rcases hb : b.prerelease with _ | ⟨y, ys⟩
    · rfl
    · simpa using loop_self (y :: ys)

/-- Witness for C2 at concrete versions differing only in build metadata. -/
theorem C2_witness :
    compareSemVer ⟨1, 2, 3, [], ["a"]⟩ ⟨1, 2, 3, [], ["b"]⟩ = 0 :=
  C2_compare_total_order.2.2.1 ⟨1, 2, 3, [], ["a"]⟩ ⟨1, 2, 3, [], ["b"]⟩ rfl rfl rfl rfl

/-- C5: `inc` with `major` increments the major field unless the version is
a pre-major version (minor and patch zero with a non-empty prerelease), in
which case major is kept; minor/patch are reset and the prerelease is
cleared; analogously for `minor` and `patch`; with the spec's four
string-level examples. -/
theorem C5_inc_majorMinorPatch :
    (∀ v : SemVer, incSemVer v "major" none = .ok
      { major := if v.minor = 0 ∧ v.patch = 0 ∧ v.prerelease ≠ [] then v.major
                 else v.major + 1,
        minor := 0, patch := 0, prerelease := [], build := v.build }) ∧
    (∀ v : SemVer, incSemVer v "minor" none = .ok
      { major := v.major,
        minor := if v.patch = 0 ∧ v.prerelease ≠ [] then v.minor else v.minor + 1,
        patch := 0, prerelease := [], build := v.build }) ∧
    (∀ v : SemVer, incSemVer v "patch" none = .ok
      { major := v.major, minor := v.minor,
        patch := if v.prerelease ≠ [] then v.patch else v.patch + 1,
        prerelease := [], build := v.build }) ∧
    incStr "1.2.3" "patch" none = some "1.2.4" ∧
    incStr "1.2.3-4" "patch" none = some "1.2.3" ∧
    incStr "1.0.0" "major" none = some "2.0.0" ∧
    incStr "1.0.0-5" "major" none = some "1.0.0" := by
  refine ⟨?_, ?_, ?_, by decide, by decide, by decide, by decide⟩
  · intro v
    have hmaj : (if v.minor ≠ 0 ∨ v.patch ≠ 0 ∨ v.prerelease = [] then v.major + 1
        else v.major)
        = (if v.minor = 0 ∧ v.patch = 0 ∧ v.prerelease ≠ [] then v.major
           else v.major + 1) := by
      by_cases h : v.minor = 0 ∧ v.patch = 0 ∧ v.prerelease ≠ []
      · rw [if_pos h, if_neg (by tauto)]
      · rw [if_neg h, if_pos (by tauto)]
    simp only [incSemVer, incMajor, hmaj]
  · intro v
    have hmin : (if v.patch ≠ 0 ∨ v.prerelease = [] then v.minor + 1 else v.minor)
        = (if v.patch = 0 ∧ v.prerelease ≠ [] then v.minor else v.minor + 1) := by
      by_cases h : v.patch = 0 ∧ v.prerelease ≠ []
      · rw [if_pos h, if_neg (by tauto)]
      · rw [if_neg h, if_pos (by tauto)]
    simp only [incSemVer, incMinor, hmin]
  · intro v
    have hpat : (if v.prerelease = [] then v.patch + 1 else v.patch)
        = (if v.prerelease ≠ [] then v.patch else v.patch + 1) := by
      by_cases h : v.prerelease = []
      · rw [if_pos h, if_neg (by tauto)]
      · rw [if_neg h, if_pos h]
    simp only [incSemVer, incPatch, hpat]

/-- C6: `parse` returns `null` and never raises when the input is not a
string, exceeds 256 characters, fails the full-version grammar, or when the
throwing constructor fails for any other reason; in particular on `null`
and on `"not-a-version"`. -/
theorem C6_parse_never_throws :
    parseJS none = none ∧
    (∀ s : String, MAX_LENGTH < s.data.length → parseJS (some s) = none) ∧
    (∀ s : String, matchesFull s.data = false → parseJS (some s) = none) ∧
    (∀ (s : String) (e : JsErr), newSemVer s = .error e → parseJS (some s) = none) ∧
    parseJS (some "not-a-version") = none := by
  refine ⟨rfl, ?_, ?_, ?_, by decide⟩
  · intro s h
    have hred : parseJS (some s) = if s.data.length > MAX_LENGTH then none
        else if !matchesFull s.data then none else (newSemVer s).toOption := rfl
    rw [hred, if_pos h]
  · intro s h
    have hred : parseJS (some s) = if s.data.length > MAX_LENGTH then none
        else if !matchesFull s.data then none else (newSemVer s).toOption := rfl
    rw [hred]
    split
    · rfl
    · rw [h]
      rfl
  · intro s e h
    have hred : parseJS (some s) = if s.data.length > MAX_LENGTH then none
        else if !matchesFull s.data then none else (newSemVer s).toOption := rfl
    rw [hred]
    split
    · rfl
    · split
      · rfl
      · rw [h]
        rfl

/-- Witness for C6 at a 300-character input. -/
theorem C6_witness :
    MAX_LENGTH < (⟨List.replicate 257 '1'⟩ : String).data.length ∧
    parseJS (some ⟨List.replicate 257 '1'⟩) = none :=
  ⟨by decide, C6_parse_never_throws.2.1 ⟨List.replicate 257 '1'⟩ (by decide)⟩

theorem parseJS_some {s : String} {a : SemVer} (h : parseJS (some s) = some a) :
    newSemVer s = .ok a := by
  have hred : parseJS (some s) = if s.data.length > MAX_LENGTH then none
      else if !matchesFull s.data then none else (newSemVer s).toOption := rfl
  rw [hred] at h
  split at h
  · cases h
  · split at h
    · cases h
    · cases hn : newSemVer s with
      | error e =>
        rw [hn] at h
        simp [Except.toOption] at h
      | ok x =>
        rw [hn] at h
        simp only [Except.toOption, Option.some.injEq] at h
        rw [h]

/-- C9 counterexample: at `("1.0.0-alpha", "1.0.0")` no main field differs,
so the claim's "null if none of those fields differ" prescribes `null`, but
`diff` returns `"prerelease"`. -/
theorem C9_counterexample :
    diffStr "1.0.0-alpha" "1.0.0" = .ok (some "prerelease") ∧
    diffStr "1.0.0-alpha" "1.0.0" ≠ .ok none := by
  exact ⟨by decide, by decide⟩

/-- C9 amended: for parsed versions, `diff` returns `null` iff the versions
compare equal; otherwise the first differing main field, `"pre"`-prefixed
when either side has a prerelease; and `"prerelease"` (not `null`) when
either side has a prerelease but all main fields coincide. -/
theorem C9_diff_amended (s1 s2 : String) (a b : SemVer)
    (h1 : parseJS (some s1) = some a) (h2 : parseJS (some s2) = some b) :
    diffStr s1 s2 = .ok (expectedDiff a b) := by
  have hn1 : newSemVer s1 = .ok a := parseJS_some h1
  have hn2 : newSemVer s2 = .ok b := parseJS_some h2
  unfold diffStr compareStr expectedDiff
  rw [hn1, hn2, h1, h2]
  simp only [bind, Except.bind]
  by_cases c0 : compareSemVer a b = 0
  · simp [c0]
  · simp only [if_neg c0]
    split_ifs <;> rfl

/-- Witness for C9 at a concrete pair of versions. -/
theorem C9_witness :
    diffStr "1.2.3" "2.0.0-rc.1" = .ok (expectedDiff ⟨1, 2, 3, [], []⟩
      ⟨2, 0, 0, [.str "rc", .num 1], []⟩) :=
  C9_diff_amended "1.2.3" "2.0.0-rc.1" ⟨1, 2, 3, [], []⟩
    ⟨2, 0, 0, [.str "rc", .num 1], []⟩ (by decide) (by decide)

/-! ## Range testing characterization (C3) -/

theorem prerelease_isEmpty_false {v : SemVer} (h : v.prerelease ≠ []) :
    v.prerelease.isEmpty = false := by
  cases hv : v.prerelease with
  | nil => exact absurd hv h
  | cons x xs => rfl

theorem testSet_pre_iff (set : List ComparatorS) (v : SemVer) (hp : v.prerelease ≠ []) :
    testSet set v false = true ↔
      ((∀ c ∈ set, comparatorTest c v = true) ∧
       ∃ c ∈ set, ∃ sv, c.semver = some sv ∧ sv.prerelease ≠ [] ∧
         sv.major = v.major ∧ sv.minor = v.minor ∧ sv.patch = v.patch) := by
  unfold testSet
  by_cases hall : set.all (fun c => comparatorTest c v) = true
  · rw [if_neg (by simp [hall]), if_pos (by simp [prerelease_isEmpty_false hp])]
    rw [List.any_eq_true]
    constructor
    · intro ⟨c, hc, hm⟩
      refine ⟨List.all_eq_true.mp hall, c, hc, ?_⟩
      cases hs : c.semver with
      | none => rw [hs] at hm; cases hm
      | some sv =>
        rw [hs] at hm
        simp only [Bool.and_eq_true, beq_iff_eq, Bool.not_eq_true'] at hm
        refine ⟨sv, rfl, ?_, hm.1.1.2, hm.1.2, hm.2⟩
        intro hh
        rw [hh] at hm
        simp at hm
    · intro ⟨_, c, hc, sv, hs, hpre, h1, h2, h3⟩
      refine ⟨c, hc, ?_⟩
      rw [hs]
      simp [prerelease_isEmpty_false hpre, h1, h2, h3]
  · have hall' : set.all (fun c => comparatorTest c v) = false := by
      cases hx : set.all (fun c => comparatorTest c v)
      · rfl
      · exact absurd hx hall
    rw [if_pos (by simp [hall'])]
    constructor
    · intro h
      cases h
    · intro ⟨h1, _⟩
      exact absurd (List.all_eq_true.mpr h1) hall

theorem testSet_ipr_true (set : List ComparatorS) (v : SemVer) :
    testSet set v true = set.all (fun c => comparatorTest c v) := by
  unfold testSet
  by_cases hall : set.all (fun c => comparatorTest c v) = true
  · rw [if_neg (by simp [hall]), if_neg (by simp), hall]
  · have hall' : set.all (fun c => comparatorTest c v) = false := by
      cases hx : set.all (fun c => comparatorTest c v)
      · rfl
      · exact absurd hx hall
    rw [if_pos (by simp [hall']), hall']

/-- C3: with a non-empty prerelease and no `includePrerelease`, `Range.test`
holds iff some AND-group passes every comparator and contains a comparator
anchoring a prerelease at the version's exact `major.minor.patch`; with
`includePrerelease` only the every-comparator condition applies; plus the
spec's two `satisfies` examples. -/
theorem C3_prerelease_visibility :
    (∀ (r : RangeS) (v : SemVer), v.prerelease ≠ [] → r.includePrerelease = false →
      (rangeTestV r v = true ↔ ∃ g ∈ r.set, (∀ c ∈ g, comparatorTest c v = true) ∧
        ∃ c ∈ g, ∃ sv, c.semver = some sv ∧ sv.prerelease ≠ [] ∧
          sv.major = v.major ∧ sv.minor = v.minor ∧ sv.patch = v.patch)) ∧
    (∀ (r : RangeS) (v : SemVer), r.includePrerelease = true →
      (rangeTestV r v = true ↔ ∃ g ∈ r.set, ∀ c ∈ g, comparatorTest c v = true)) ∧
    satisfiesE "1.2.3-alpha.1" "^1.2.3-alpha" false = .ok true ∧
    satisfiesE "1.2.3-alpha.1" "^1.2.0" false = .ok false := by
  refine ⟨?_, ?_, by decide, by decide⟩
  · intro r v hp hipr
    unfold rangeTestV
    rw [hipr, List.any_eq_true]
    constructor
    · intro ⟨g, hg, ht⟩
      exact ⟨g, hg, (testSet_pre_iff g v hp).mp ht⟩
    · intro ⟨g, hg, ht⟩
      exact ⟨g, hg, (testSet_pre_iff g v hp).mpr ht⟩
  · intro r v hipr
    unfold rangeTestV
    rw [hipr, List.any_eq_true]
    constructor
    · intro ⟨g, hg, ht⟩
      rw [testSet_ipr_true] at ht
      exact ⟨g, hg, List.all_eq_true.mp ht⟩
    · intro ⟨g, hg, ht⟩
      exact ⟨g, hg, by rw [testSet_ipr_true]; exact List.all_eq_true.mpr ht⟩

/-- Witness for C3 at a concrete range value and prerelease version. -/
theorem C3_witness :
    rangeTestV ⟨[[⟨.geOp, some ⟨1, 2, 3, [.str "alpha"], []⟩⟩]], false⟩
        ⟨1, 2, 3, [.str "alpha", .num 1], []⟩ = true ↔
      ∃ g ∈ [[(⟨.geOp, some ⟨1, 2, 3, [.str "alpha"], []⟩⟩ : ComparatorS)]],
        (∀ c ∈ g, comparatorTest c ⟨1, 2, 3, [.str "alpha", .num 1], []⟩ = true) ∧
        ∃ c ∈ g, ∃ sv, c.semver = some sv ∧ sv.prerelease ≠ [] ∧
          sv.major = 1 ∧ sv.minor = 2 ∧ sv.patch = 3 :=
  C3_prerelease_visibility.1 ⟨[[⟨.geOp, some ⟨1, 2, 3, [.str "alpha"], []⟩⟩]], false⟩
    ⟨1, 2, 3, [.str "alpha", .num 1], []⟩ (by decide) rfl

/-! ## C7: which entry points throw -/

/-- C7 counterexample: `"*"` is a valid range, yet `satisfies` with a
malformed version argument raises instead of returning `false` — the claim
that none of these functions throws for every version argument is false. -/
theorem C7_counterexample :
    (mkRange "*" false).toOption.isSome = true ∧
    satisfiesE "not-a-version" "*" false =
      .error (.typeError "Invalid Version: not-a-version") := by
  exact ⟨by decide, by decide⟩

/-- C7 amended: for every malformed RANGE string the non-throwing entry
points return their sentinels (`satisfies` false, `maxSatisfying`,
`minSatisfying` and `validRange` null) without raising, and `validRange`
also maps `null` to `null`; but a malformed VERSION argument makes
`satisfies`/`maxSatisfying`/`minSatisfying` raise (see the
counterexample). -/
theorem C7_sentinels_on_bad_range :
    (∀ (version range : String) (e : JsErr), mkRange range false = .error e →
      satisfiesE version range false = .ok false) ∧
    (∀ (versions : List String) (range : String) (e : JsErr),
      mkRange range false = .error e →
      maxSatisfyingE versions range false = .ok none) ∧
    (∀ (versions : List String) (range : String) (e : JsErr),
      mkRange range false = .error e →
      minSatisfyingE versions range false = .ok none) ∧
    (∀ (range : String) (e : JsErr), mkRange range false = .error e →
      validRange (some range) false = none) ∧
    validRange none false = none := by
  refine ⟨?_, ?_, ?_, ?_, rfl⟩
  · intro version range e h
    unfold satisfiesE
    rw [h]
  · intro versions range e h
    unfold maxSatisfyingE
    rw [h]
  · intro versions range e h
    unfold minSatisfyingE
    rw [h]
  · intro range e h
    have hred : validRange (some range) false =
        (match mkRange range false with
         | .error _ => none
         | .ok r => some (if (formatRange r).data.isEmpty then "*" else formatRange r)) := rfl
    rw [hred, h]

/-- Witness for C7 at a concrete malformed range. -/
theorem C7_witness :
    satisfiesE "1.0.0" "not-a-range" false = .ok false ∧
    maxSatisfyingE ["1.0.0"] "not-a-range" false = .ok none ∧
    minSatisfyingE ["1.0.0"] "not-a-range" false = .ok none ∧
    validRange (some "not-a-range") false = none :=
  ⟨C7_sentinels_on_bad_range.1 "1.0.0" "not-a-range"
      (.typeError "Invalid comparator: not-a-range") (by decide),
   C7_sentinels_on_bad_range.2.1 ["1.0.0"] "not-a-range"
      (.typeError "Invalid comparator: not-a-range") (by decide),
   C7_sentinels_on_bad_range.2.2.1 ["1.0.0"] "not-a-range"
      (.typeError "Invalid comparator: not-a-range") (by decide),
   C7_sentinels_on_bad_range.2.2.2.1 "not-a-range"
      (.typeError "Invalid comparator: not-a-range") (by decide)⟩

/-! ## C8: minVersion -/

/-- C8 counterexample: for the range `>=0.0.0-0`, `minVersion` returns
`0.0.0` although the strictly smaller `0.0.0-0` also satisfies the range —
so `minVersion` does not always return the lowest satisfying version. -/
theorem C8_counterexample :
    minVersionE ">=0.0.0-0" false = .ok (some semverZero) ∧
    satisfiesE "0.0.0-0" ">=0.0.0-0" false = .ok true ∧
    compareStr "0.0.0-0" "0.0.0" = .ok (-1) ∧
    formatSemVer semverZero = "0.0.0" := by
  exact ⟨by decide, by decide, by decide, by decide⟩

/-- C8 amended: `minVersion` is sound — whenever it returns a version, that
version satisfies the range (it tries `0.0.0` and `0.0.0-0` literally and
then candidates derived from lower-bound comparators, returning null when
no candidate qualifies) — but the returned version need not be the minimum
satisfying version. -/
theorem C8_minVersion_sound (range : String) (ipr : Bool) (v : SemVer)
    (h : minVersionE range ipr = .ok (some v)) :
    ∃ r : RangeS, mkRange range ipr = .ok r ∧ rangeTestV r v = true := by
  unfold minVersionE at h
  cases hr : mkRange range ipr with
  | error e =>
    rw [hr] at h
    simp [bind, Except.bind] at h
  | ok r =>
    refine ⟨r, rfl, ?_⟩
    rw [hr] at h
    simp only [bind, Except.bind] at h
    by_cases h0 : rangeTestV r semverZero
    · rw [if_pos h0] at h
      injection h with h'
      injection h' with h''
      rw [← h'']
      exact h0
    · rw [if_neg h0] at h
      by_cases h1 : rangeTestV r semverZeroPre
      · rw [if_pos h1] at h
        injection h with h'
        injection h' with h''
        rw [← h'']
        exact h1
      · rw [if_neg h1] at h
        cases hf : r.set.foldlM (fun acc comps => comps.foldlM minVerStep acc) none with
        | error e =>
          rw [hf] at h
          simp at h
        | ok minver =>
          rw [hf] at h
          simp only at h
          cases minver with
          | none => simp at h
          | some mv =>
            simp only at h
            by_cases ht : rangeTestV r mv
            · rw [if_pos ht] at h
              injection h with h'
              injection h' with h''
              rw [← h'']
              exact ht
            · rw [if_neg ht] at h
              simp at h

/-- Witness for C8 at a concrete range. -/
theorem C8_witness :
    ∃ r : RangeS, mkRange ">=1.2.3" false = .ok r ∧
      rangeTestV r ⟨1, 2, 3, [], []⟩ = true :=
  C8_minVersion_sound ">=1.2.3" false ⟨1, 2, 3, [], []⟩ (by decide)

/-! ## C10: minSatisfying -/

theorem newSemVer_err_type {s : String} {e : JsErr} (h : newSemVer s = .error e) :
    ∃ msg, e = .typeError msg := by
  unfold newSemVer at h
  split at h
  · injection h with h'
    exact ⟨_, h'.symm⟩
  · split at h
    · split at h
      · injection h with h'
        exact ⟨_, h'.symm⟩
      · split at h
        · injection h with h'
          exact ⟨_, h'.symm⟩
        · split at h
          · injection h with h'
            exact ⟨_, h'.symm⟩
          · cases h
    · injection h with h'
      exact ⟨_, h'.symm⟩

theorem rangeTestStr_ok {r : RangeS} {s : String} {bb : Bool}
    (h : rangeTestStr r s = .ok bb) :
    ∃ a, newSemVer s = .ok a ∧ rangeTestV r a = bb := by
  unfold rangeTestStr at h
  cases hn : newSemVer s with
  | error e =>
    rw [hn] at h
    simp [Except.map] at h
  | ok a =>
    rw [hn] at h
    simp only [Except.map, Except.ok.injEq] at h
    exact ⟨a, rfl, h⟩

theorem rangeTestStr_err {r : RangeS} {s : String} {e : JsErr}
    (h : rangeTestStr r s = .error e) : newSemVer s = .error e := by
  unfold rangeTestStr at h
  cases hn : newSemVer s with
  | error e2 =>
    rw [hn] at h
    simp only [Except.map, Except.error.injEq] at h
    rw [h]
  | ok a =>
    rw [hn] at h
    simp [Except.map] at h

theorem newSemVer_ok_ne_nil {s : String} {a : SemVer} (h : newSemVer s = .ok a) :
    s.data ≠ [] := by
  intro hh
  have hs : s = ⟨[]⟩ := String.ext hh
  rw [hs] at h
  have he : newSemVer ⟨[]⟩ = .error (.typeError "Invalid Version: ") := by decide
  rw [he] at h
  cases h

theorem minSatGo_no_deref (r : RangeS) :
    ∀ (l : List String) (minv : Option String) (minSV : Option SemVer),
      (∀ m, minv = some m → ∃ a0, minSV = some a0 ∧ newSemVer m = .ok a0 ∧
        rangeTestStr r m = .ok true) →
      ∀ msg, minSatGo r l minv minSV ≠ .error (.nullDeref msg) := by
  intro l
  induction l with
  | nil =>
    intro minv minSV hinv msg h
    cases h
  | cons v0 rest ih =>
    intro minv minSV hinv msg h
    simp only [minSatGo, bind, Except.bind, pure, Except.pure] at h
    cases ht : rangeTestStr r v0 with
    | error e =>
      rw [ht] at h
      simp only [Except.bind] at h
      injection h with h'
      rcases newSemVer_err_type (rangeTestStr_err ht) with ⟨m2, hm2⟩
      rw [hm2] at h'
      cases h'
    | ok t =>
      rw [ht] at h
      simp only [Except.bind] at h
      cases t with
      | false =>
        rw [if_neg (by decide)] at h
        exact ih minv minSV hinv msg h
      | true =>
        rw [if_pos rfl] at h
        rcases rangeTestStr_ok ht with ⟨nv0, hnv0, htv⟩
        have hinvNew : ∀ m, (some v0 : Option String) = some m →
            ∃ a0, (some nv0 : Option SemVer) = some a0 ∧ newSemVer m = .ok a0 ∧
              rangeTestStr r m = .ok true := by
          intro m hm
          injection hm with hm'
          exact ⟨nv0, rfl, by rw [← hm']; exact hnv0, by rw [← hm']; exact ht⟩
        by_cases hfal : jsFalsyStr minv
        · rw [if_pos hfal, if_pos trivial, hnv0] at h
          simp only at h
          exact ih (some v0) (some nv0) hinvNew msg h
        · rw [if_neg hfal] at h
          cases hmv : minv with
          | none =>
            subst hmv
            simp [jsFalsyStr] at hfal
          | some m =>
            subst hmv
            rcases hinv m rfl with ⟨a0, hsv, hpm, htm⟩
            rw [hsv] at h
            simp only at h
            have hcmp : compareToStr a0 v0 = .ok (compareSemVer a0 nv0) := by
              unfold compareToStr
              rw [hnv0]
              rfl
            rw [hcmp] at h
            simp only at h
            by_cases hc : decide (compareSemVer a0 nv0 = 1) = true
            · rw [hc, if_pos rfl, hnv0] at h
              simp only at h
              exact ih (some v0) (some nv0) hinvNew msg h
            · have hc' : decide (compareSemVer a0 nv0 = 1) = false := by
                cases hx : decide (compareSemVer a0 nv0 = 1)
                · rfl
                · exact absurd hx hc
              rw [hc', if_neg (by decide)] at h
              refine ih (some m) (some a0) ?_ msg h
              intro m2 hm2
              injection hm2 with he
              exact ⟨a0, rfl, by rw [← he]; exact hpm, by rw [← he]; exact htm⟩

theorem minSatGo_inv_some (r : RangeS) :
    ∀ (l : List String) (minv : Option String) (minSV : Option SemVer) (v : String)
      (P : SemVer → Prop),
      (∀ m, minv = some m → ∃ a0, minSV = some a0 ∧ newSemVer m = .ok a0 ∧
        rangeTestStr r m = .ok true ∧ ∀ b2, P b2 → compareSemVer a0 b2 ≤ 0) →
      (minv = none → ∀ b2, ¬P b2) →
      minSatGo r l minv minSV = .ok (some v) →
      (rangeTestStr r v = .ok true ∧
       (minv = some v ∨ v ∈ l) ∧
       ∃ a, newSemVer v = .ok a ∧
         (∀ b2, P b2 → compareSemVer a b2 ≤ 0) ∧
         (∀ w ∈ l, rangeTestStr r w = .ok true →
            ∃ b2, newSemVer w = .ok b2 ∧ compareSemVer a b2 ≤ 0)) := by
  intro l
  induction l with
  | nil =>
    intro minv minSV v P hinv _ h
    simp only [minSatGo, Except.ok.injEq] at h
    subst h
    rcases hinv v rfl with ⟨a0, _, hpm, htm, hdom⟩
    refine ⟨htm, Or.inl rfl, a0, hpm, hdom, ?_⟩
    intro w hw
    exact absurd hw (List.not_mem_nil w)
  | cons v0 rest ih =>
    intro minv minSV v P hinv hnone h
    simp only [minSatGo, bind, Except.bind, pure, Except.pure] at h
    cases ht : rangeTestStr r v0 with
    | error e =>
      rw [ht] at h
      simp only [Except.bind] at h
      cases h
    | ok t =>
      rw [ht] at h
      simp only [Except.bind] at h
      cases t with
      | false =>
        rw [if_neg (by decide)] at h
        rcases ih minv minSV v P hinv hnone h with ⟨p1, p2, a, hpa, pdom, plist⟩
        refine ⟨p1, ?_, a, hpa, pdom, ?_⟩
        · rcases p2 with p2 | p2
          · exact Or.inl p2
          · exact Or.inr (List.mem_cons_of_mem _ p2)
        · intro w hw hwt
          rcases List.mem_cons.mp hw with hw1 | hw2
          · subst hw1
            rw [ht] at hwt
            injection hwt with hwt'
            cases hwt'
          · exact plist w hw2 hwt
      | true =>
        rw [if_pos rfl] at h
        rcases rangeTestStr_ok ht with ⟨nv0, hnv0, htv⟩
        by_cases hfal : jsFalsyStr minv
        · -- no previous minimum (a present one would parse, hence be non-empty)
          have hmvnone : minv = none := by
            cases hmv : minv with
            | none => rfl
            | some m =>
              rcases hinv m hmv with ⟨a0, _, hpm, _⟩
              rw [hmv] at hfal
              simp only [jsFalsyStr] at hfal
              have hdm : m.data = [] := by
                cases hd : m.data with
                | nil => rfl
                | cons c cs =>
                  rw [hd] at hfal
                  simp at hfal
              exact absurd hdm (newSemVer_ok_ne_nil hpm)
          have hPemp := hnone hmvnone
          rw [if_pos hfal, if_pos trivial, hnv0] at h
          simp only at h
          have hinvNew : ∀ m2, (some v0 : Option String) = some m2 →
              ∃ a1, (some nv0 : Option SemVer) = some a1 ∧ newSemVer m2 = .ok a1 ∧
                rangeTestStr r m2 = .ok true ∧
                ∀ b2, (P b2 ∨ b2 = nv0) → compareSemVer a1 b2 ≤ 0 := by
            intro m2 hm2
            injection hm2 with hm2'
            refine ⟨nv0, rfl, by rw [← hm2']; exact hnv0, by rw [← hm2']; exact ht, ?_⟩
            intro b2 hb2
            rcases hb2 with hb2 | hb2
            · exact absurd hb2 (hPemp b2)
            · rw [hb2, compareSemVer_self]
          rcases ih (some v0) (some nv0) v (fun b2 => P b2 ∨ b2 = nv0) hinvNew
            (fun hh => Option.noConfusion hh) h with ⟨p1, p2, a, hpa, pdom, plist⟩
          refine ⟨p1, ?_, a, hpa, ?_, ?_⟩
          · rcases p2 with p2 | p2
            · injection p2 with p2'
              exact Or.inr (by rw [← p2']; exact List.mem_cons_self _ _)
            · exact Or.inr (List.mem_cons_of_mem _ p2)
          · intro b2 hb2
            exact pdom b2 (Or.inl hb2)
          · intro w hw hwt
            rcases List.mem_cons.mp hw with hw1 | hw2
            · subst hw1
              exact ⟨nv0, hnv0, pdom nv0 (Or.inr rfl)⟩
            · exact plist w hw2 hwt
        · rw [if_neg hfal] at h
          cases hmv : minv with
          | none =>
            subst hmv
            simp [jsFalsyStr] at hfal
          | some m =>
            subst hmv
            rcases hinv m rfl with ⟨a0, hsv, hpm, htm, hdom⟩
            rw [hsv] at h
            simp only at h
            have hcmp : compareToStr a0 v0 = .ok (compareSemVer a0 nv0) := by
              unfold compareToStr
              rw [hnv0]
              rfl
            rw [hcmp] at h
            simp only at h
            by_cases hc : decide (compareSemVer a0 nv0 = 1) = true
            · -- previous minimum strictly above v0: take v0
              have hgt : compareSemVer a0 nv0 = 1 := of_decide_eq_true hc
              rw [hc, if_pos rfl, hnv0] at h
              simp only at h
              have hinvNew : ∀ m2, (some v0 : Option String) = some m2 →
                  ∃ a1, (some nv0 : Option SemVer) = some a1 ∧ newSemVer m2 = .ok a1 ∧
                    rangeTestStr r m2 = .ok true ∧
                    ∀ b2, (P b2 ∨ b2 = nv0) → compareSemVer a1 b2 ≤ 0 := by
                intro m2 hm2
                injection hm2 with hm2'
                refine ⟨nv0, rfl, by rw [← hm2']; exact hnv0, by rw [← hm2']; exact ht, ?_⟩
                intro b2 hb2
                rcases hb2 with hb2 | hb2
                · -- the strict step transports the old dominance to the new minimum
                  have h4 := hdom b2 hb2
                  rcases compareSemVer_mem nv0 b2 with hm3 | hm3 | hm3
                  · omega
                  · omega
                  · have h5 := compareSemVer_one_trans hgt hm3
                    omega
                · rw [hb2, compareSemVer_self]
              rcases ih (some v0) (some nv0) v (fun b2 => P b2 ∨ b2 = nv0) hinvNew
                (fun hh => Option.noConfusion hh) h with ⟨p1, p2, a, hpa, pdom, plist⟩
              refine ⟨p1, ?_, a, hpa, ?_, ?_⟩
              · rcases p2 with p2 | p2
                · injection p2 with p2'
                  exact Or.inr (by rw [← p2']; exact List.mem_cons_self _ _)
                · exact Or.inr (List.mem_cons_of_mem _ p2)
              · intro b2 hb2
                exact pdom b2 (Or.inl hb2)
              · intro w hw hwt
                rcases List.mem_cons.mp hw with hw1 | hw2
                · subst hw1
                  exact ⟨nv0, hnv0, pdom nv0 (Or.inr rfl)⟩
                · exact plist w hw2 hwt
            · -- previous minimum at or below v0: keep it
              have hle0 : compareSemVer a0 nv0 ≤ 0 := by
                have hne : compareSemVer a0 nv0 ≠ 1 := by
                  intro hh
                  exact hc (decide_eq_true hh)
                rcases compareSemVer_mem a0 nv0 with hh | hh | hh <;> omega
              have hc' : decide (compareSemVer a0 nv0 = 1) = false := by
                cases hx : decide (compareSemVer a0 nv0 = 1)
                · rfl
                · exact absurd hx hc
              rw [hc', if_neg (by decide)] at h
              have hinvKeep : ∀ m2, (some m : Option String) = some m2 →
                  ∃ a1, (some a0 : Option SemVer) = some a1 ∧ newSemVer m2 = .ok a1 ∧
                    rangeTestStr r m2 = .ok true ∧
                    ∀ b2, (P b2 ∨ b2 = nv0) → compareSemVer a1 b2 ≤ 0 := by
                intro m2 hm2
                injection hm2 with he
                refine ⟨a0, rfl, by rw [← he]; exact hpm, by rw [← he]; exact htm, ?_⟩
                intro b2 hb2
                rcases hb2 with hb2 | hb2
                · exact hdom b2 hb2
                · rw [hb2]
                  exact hle0
              rcases ih (some m) (some a0) v (fun b2 => P b2 ∨ b2 = nv0) hinvKeep
                (fun hh => Option.noConfusion hh) h with ⟨p1, p2, a, hpa, pdom, plist⟩
              refine ⟨p1, ?_, a, hpa, ?_, ?_⟩
              · rcases p2 with p2 | p2
                · exact Or.inl p2
                · exact Or.inr (List.mem_cons_of_mem _ p2)
              · intro b2 hb2
                exact pdom b2 (Or.inl hb2)
              · intro w hw hwt
                rcases List.mem_cons.mp hw with hw1 | hw2
                · subst hw1
                  exact ⟨nv0, hnv0, pdom nv0 (Or.inr rfl)⟩
                · exact plist w hw2 hwt

/-- C10: `minSatisfying` never dereferences a null comparison object (the
`!min` test short-circuits before `minSV.compare` is reached, so `minSV` is
a constructed `SemVer` whenever `compare` is called), and a non-null result
is an element of the input list that satisfies the range and is at or below
every satisfying element under `compare`. -/
theorem C10_minSatisfying_safe :
    (∀ (versions : List String) (range : String) (ipr : Bool) (msg : String),
      minSatisfyingE versions range ipr ≠ .error (.nullDeref msg)) ∧
    (∀ (versions : List String) (range : String) (ipr : Bool) (v : String),
      minSatisfyingE versions range ipr = .ok (some v) →
      ∃ r, mkRange range ipr = .ok r ∧ v ∈ versions ∧ rangeTestStr r v = .ok true ∧
        ∀ w ∈ versions, rangeTestStr r w = .ok true →
          ∃ a b2, newSemVer v = .ok a ∧ newSemVer w = .ok b2 ∧
            compareSemVer a b2 ≤ 0) := by
  constructor
  · intro versions range ipr msg h
    unfold minSatisfyingE at h
    split at h
    · cases h
    · exact minSatGo_no_deref _ versions none none (fun m hm => by cases hm) msg h
  · intro versions range ipr v h
    unfold minSatisfyingE at h
    split at h
    · cases h
    · rename_i r hr
      rcases minSatGo_inv_some r versions none none v (fun _ => False)
        (fun m hm => by cases hm) (fun _ b2 hb2 => hb2) h with
        ⟨p1, p2, a, hpa, _, plist⟩
      rcases p2 with p2 | p2
      · cases p2
      · refine ⟨r, hr, p2, p1, ?_⟩
        intro w hw hwt
        rcases plist w hw hwt with ⟨b2, hb2, hcmp⟩
        exact ⟨a, b2, hpa, hb2, hcmp⟩

/-- Witness for C10 at a concrete list and range. -/
theorem C10_witness :
    ∃ r, mkRange "^1.0.0" false = .ok r ∧ "1.0.0" ∈ ["1.2.0", "1.0.0"] ∧
      rangeTestStr r "1.0.0" = .ok true ∧
      ∀ w ∈ ["1.2.0", "1.0.0"], rangeTestStr r w = .ok true →
        ∃ a b2, newSemVer "1.0.0" = .ok a ∧ newSemVer w = .ok b2 ∧
          compareSemVer a b2 ≤ 0 :=
  C10_minSatisfying_safe.2 ["1.2.0", "1.0.0"] "^1.0.0" false "1.0.0" (by decide)

/-! ## The caret rewrite on grammar-valid tokens (C4) -/

theorem all_head {q : Char → Bool} {c : Char} {cs : List Char}
    (h : (c :: cs).all q = true) : q c = true ∧ cs.all q = true := by
  simp only [List.all_cons, Bool.and_eq_true] at h
  exact h

theorem takeWhile_all_append (q : Char → Bool) (d rest : List Char)
    (hall : d.all q = true) :
    (d ++ rest).takeWhile q = d ++ rest.takeWhile q := by
  induction d with
  | nil => rfl
  | cons c cs ih =>
    rcases all_head hall with ⟨h1, h2⟩
    simp [List.takeWhile_cons, h1, ih h2]

theorem dropWhile_all_append (q : Char → Bool) (d rest : List Char)
    (hall : d.all q = true) :
    (d ++ rest).dropWhile q = rest.dropWhile q := by
  induction d with
  | nil => rfl
  | cons c cs ih =>
    rcases all_head hall with ⟨h1, h2⟩
    simp [List.dropWhile_cons, h1, ih h2]

theorem takeWhile_cons_false {q : Char → Bool} {c : Char} (xs : List Char)
    (h : q c = false) : (c :: xs).takeWhile q = [] := by
  simp [List.takeWhile_cons, h]

theorem dropWhile_cons_false {q : Char → Bool} {c : Char} (xs : List Char)
    (h : q c = false) : (c :: xs).dropWhile q = c :: xs := by
  simp [List.dropWhile_cons, h]

theorem dropWhile_of_takeWhile_nil {q : Char → Bool} {l : List Char}
    (h : l.takeWhile q = []) : l.dropWhile q = l := by
  cases l with
  | nil => rfl
  | cons c r =>
    cases hq : q c with
    | false => simp [List.dropWhile_cons, hq]
    | true =>
      rw [List.takeWhile_cons, hq, if_pos rfl] at h
      simp at h

theorem digit_not_x {c : Char} (h : isDigitC c = true) :
    (c = 'x' || c = 'X' || c = '*') = false := by
  simp only [isDigitC, Bool.and_eq_true, decide_eq_true_eq] at h
  have hx : ¬(c = 'x') := fun he => absurd h.2 (by rw [he]; decide)
  have hX : ¬(c = 'X') := fun he => absurd h.2 (by rw [he]; decide)
  have hs : ¬(c = '*') := fun he => absurd h.1 (by rw [he]; decide)
  simp [hx, hX, hs]

theorem digit_not_vEqWs {c : Char} (h : isDigitC c = true) : isVEqWs c = false := by
  simp only [isDigitC, Bool.and_eq_true, decide_eq_true_eq] at h
  have hv : ¬(c = 'v') := fun he => absurd h.2 (by rw [he]; decide)
  have he' : ¬(c = '=') := fun he => absurd h.2 (by rw [he]; decide)
  have hsp : ¬(c = ' ') := fun he => absurd h.1 (by rw [he]; decide)
  have hw : ¬(c.toNat ≤ 13) := by omega
  simp [isVEqWs, isWsC, hv, he', hsp, hw]

theorem validNumRun_ne_nil {d : List Char} (hv : validNumRun d = true) : d ≠ [] := by
  intro he
  subst he
  simp [validNumRun] at hv

theorem isXOpt_digits {d : List Char} (hall : d.all isDigitC = true)
    (hne : d ≠ []) : isXOpt (some d) = false := by
  cases d with
  | nil => exact absurd rfl hne
  | cons c cs =>
    have h1 := (all_head hall).1
    simp only [isDigitC, Bool.and_eq_true, decide_eq_true_eq] at h1
    have hx : ¬(c :: cs = ['x']) := by
      intro he
      injection he with e1 _
      exact absurd h1.2 (by rw [e1]; decide)
    have hX : ¬(c :: cs = ['X']) := by
      intro he
      injection he with e1 _
      exact absurd h1.2 (by rw [e1]; decide)
    have hs : ¬(c :: cs = ['*']) := by
      intro he
      injection he with e1 _
      exact absurd h1.1 (by rw [e1]; decide)
    simp [isXOpt, hx, hX, hs]

theorem validNumRun_zero_iff {d : List Char} (hall : d.all isDigitC = true)
    (hv : validNumRun d = true) : (d = ['0']) ↔ toNatDigits d = 0 := by
  constructor
  · intro h
    subst h
    rfl
  · intro h
    by_contra hne
    cases d with
    | nil => simp [validNumRun] at hv
    | cons c cs =>
      have hc0 : c ≠ '0' := by
        intro he
        subst he
        cases cs with
        | nil => exact hne rfl
        | cons c2 cs2 => simp [validNumRun] at hv
      have hd := (all_head hall).1
      have hge := toNatDigits_head_ge c cs hd hc0
      have hpos : 0 < 10 ^ cs.length := pow_pos (by omega) _
      omega

theorem parseNumId_run {d rest : List Char} (hall : d.all isDigitC = true)
    (hv : validNumRun d = true) (hstop : rest.takeWhile isDigitC = []) :
    parseNumId (d ++ rest) = some (d, rest) := by
  have hred : parseNumId (d ++ rest) =
      if validNumRun ((d ++ rest).takeWhile isDigitC) then
        some ((d ++ rest).takeWhile isDigitC, (d ++ rest).dropWhile isDigitC)
      else none := rfl
  rw [hred, takeWhile_all_append _ _ _ hall, hstop, List.append_nil,
      dropWhile_all_append _ _ _ hall, dropWhile_of_takeWhile_nil hstop, hv, if_pos rfl]

theorem parseXId_run {d rest : List Char} (hall : d.all isDigitC = true)
    (hv : validNumRun d = true) (hstop : rest.takeWhile isDigitC = []) :
    parseXId (d ++ rest) = some (d, rest) := by
  cases d with
  | nil => exact absurd rfl (validNumRun_ne_nil hv)
  | cons c cs =>
    have h1 := (all_head hall).1
    have hred : parseXId ((c :: cs) ++ rest) =
        if c = 'x' || c = 'X' || c = '*' then some ([c], cs ++ rest)
        else parseNumId ((c :: cs) ++ rest) := rfl
    rw [hred, digit_not_x h1, if_neg (by decide)]
    exact parseNumId_run hall hv hstop

theorem vEqWs_strip {d : List Char} (rest : List Char) (hall : d.all isDigitC = true)
    (hne : d ≠ []) :
    (d ++ rest).takeWhile isVEqWs = [] ∧ (d ++ rest).dropWhile isVEqWs = d ++ rest := by
  cases d with
  | nil => exact absurd rfl hne
  | cons c cs =>
    have hv := digit_not_vEqWs (all_head hall).1
    exact ⟨takeWhile_cons_false _ hv, dropWhile_cons_false _ hv⟩

theorem xrangePlainParse_mmp (M m p : List Char)
    (hM : M.all isDigitC = true) (hvM : validNumRun M = true)
    (hm : m.all isDigitC = true) (hvm : validNumRun m = true)
    (hp : p.all isDigitC = true) (hvp : validNumRun p = true) :
    xrangePlainParse (M ++ '.' :: (m ++ '.' :: p)) =
      some ({ raw := M ++ '.' :: (m ++ '.' :: p), M := M, m := some m, p := some p,
              pr := none, bld := none }, []) := by
  rcases vEqWs_strip ('.' :: (m ++ '.' :: p)) hM (validNumRun_ne_nil hvM) with ⟨hw1, hw2⟩
  have h3 : parseXId (M ++ '.' :: (m ++ '.' :: p)) = some (M, '.' :: (m ++ '.' :: p)) :=
    @parseXId_run M ('.' :: (m ++ '.' :: p)) hM hvM (takeWhile_cons_false _ (by decide))
  have h4 : parseXId (m ++ '.' :: p) = some (m, '.' :: p) :=
    @parseXId_run m ('.' :: p) hm hvm (takeWhile_cons_false _ (by decide))
  have h5 : parseXId p = some (p, []) := by
    have h := @parseXId_run p [] hp hvp rfl
    rwa [List.append_nil] at h
  simp only [xrangePlainParse, hw1, hw2, h3, h4, h5]
  simp

theorem xrangePlainParse_mmp_pre (M m p pr : List Char) (ids : List (List Char))
    (hM : M.all isDigitC = true) (hvM : validNumRun M = true)
    (hm : m.all isDigitC = true) (hvm : validNumRun m = true)
    (hp : p.all isDigitC = true) (hvp : validNumRun p = true)
    (hpr : parseDotted parsePreId pr = some (ids, [])) :
    xrangePlainParse (M ++ '.' :: (m ++ '.' :: (p ++ '-' :: pr))) =
      some ({ raw := M ++ '.' :: (m ++ '.' :: (p ++ '-' :: joinDot ids)),
              M := M, m := some m, p := some p,
              pr := some (joinDot ids), bld := none }, []) := by
  rcases vEqWs_strip ('.' :: (m ++ '.' :: (p ++ '-' :: pr))) hM (validNumRun_ne_nil hvM)
    with ⟨hw1, hw2⟩
  have h3 : parseXId (M ++ '.' :: (m ++ '.' :: (p ++ '-' :: pr))) =
      some (M, '.' :: (m ++ '.' :: (p ++ '-' :: pr))) :=
    @parseXId_run M ('.' :: (m ++ '.' :: (p ++ '-' :: pr))) hM hvM
      (takeWhile_cons_false _ (by decide))
  have h4 : parseXId (m ++ '.' :: (p ++ '-' :: pr)) = some (m, '.' :: (p ++ '-' :: pr)) :=
    @parseXId_run m ('.' :: (p ++ '-' :: pr)) hm hvm (takeWhile_cons_false _ (by decide))
  have h5 : parseXId (p ++ '-' :: pr) = some (p, '-' :: pr) :=
    @parseXId_run p ('-' :: pr) hp hvp (takeWhile_cons_false _ (by decide))
  simp only [xrangePlainParse, hw1, hw2, h3, h4, h5, hpr]
  simp

theorem xrangePlainParse_major (M : List Char)
    (hM : M.all isDigitC = true) (hvM : validNumRun M = true) :
    xrangePlainParse M =
      some ({ raw := M, M := M, m := none, p := none, pr := none, bld := none }, []) := by
  have h0 := vEqWs_strip [] hM (validNumRun_ne_nil hvM)
  rw [List.append_nil] at h0
  have h3 : parseXId M = some (M, []) := by
    have h := @parseXId_run M [] hM hvM rfl
    rwa [List.append_nil] at h
  simp only [xrangePlainParse, h0.1, h0.2, h3]
  simp

theorem xrangePlainParse_majorX (M : List Char)
    (hM : M.all isDigitC = true) (hvM : validNumRun M = true) :
    xrangePlainParse (M ++ '.' :: ['x']) =
      some ({ raw := M ++ '.' :: ['x'], M := M, m := some ['x'], p := none,
              pr := none, bld := none }, []) := by
  rcases vEqWs_strip ('.' :: ['x']) hM (validNumRun_ne_nil hvM) with ⟨hw1, hw2⟩
  have h3 : parseXId (M ++ '.' :: ['x']) = some (M, '.' :: ['x']) :=
    @parseXId_run M ('.' :: ['x']) hM hvM (takeWhile_cons_false _ (by decide))
  have h4 : parseXId ['x'] = some (['x'], []) := by decide
  simp only [xrangePlainParse, hw1, hw2, h3, h4]
  simp

theorem caretMatch_of_parse {t : List Char} {xp : XParts}
    (h : xrangePlainParse t = some (xp, [])) : caretMatch ('^' :: t) = some xp := by
  have hred : caretMatch ('^' :: t) =
      (match xrangePlainParse t with
       | some (x, []) => some x
       | _ => none) := rfl
  rw [hred, h]

theorem jsIntToStr_small {m : Nat} (h : m < 2 ^ 53) : jsIntToStr m = natRepr m := by
  unfold jsIntToStr
  rw [if_pos h]

/-- Below `2^53` the coerce-increment-render pipeline of the rewrites is
the exact successor in decimal (at `2^53 - 1` the sum `2^53` is still an
exact double and still renders in plain decimal digits). -/
theorem jsSuccStr_small {v : Nat} (h : v < 2 ^ 53) : jsSuccStr v = natRepr (v + 1) := by
  unfold jsSuccStr jsOptSucc
  rw [jsRound_small h]
  by_cases h2 : v + 1 < 2 ^ 53
  · show jsNumToStr (jsRound (v + 1)) = natRepr (v + 1)
    rw [jsRound_small h2]
    exact jsIntToStr_small h2
  · have h3 : v + 1 = 2 ^ 53 := by omega
    show jsNumToStr (jsRound (v + 1)) = natRepr (v + 1)
    rw [h3]
    decide

theorem caretResult_nopre (rawv M m p : List Char)
    (hM : M.all isDigitC = true) (hvM : validNumRun M = true)
    (hm : m.all isDigitC = true) (hvm : validNumRun m = true)
    (hp : p.all isDigitC = true) (hvp : validNumRun p = true)
    (h53M : toNatDigits M < 2 ^ 53) (h53m : toNatDigits m < 2 ^ 53)
    (h53p : toNatDigits p < 2 ^ 53) :
    caretResult ⟨rawv, M, some m, some p, none, none⟩ =
      ">=".data ++ M ++ '.' :: m ++ '.' :: p ++ " <".data ++ specCaretNext M m p := by
  have hxM : isXOpt (some M) = false := isXOpt_digits hM (validNumRun_ne_nil hvM)
  have hxm : isXOpt (some m) = false := isXOpt_digits hm (validNumRun_ne_nil hvm)
  have hxp : isXOpt (some p) = false := isXOpt_digits hp (validNumRun_ne_nil hvp)
  have hred : caretResult ⟨rawv, M, some m, some p, none, none⟩ =
      (if isXOpt (some M) then []
       else if isXOpt (some m) then
         ">=".data ++ M ++ ".0.0 <".data ++ jsSuccStr (toNatDigits M) ++ ".0.0".data
       else if isXOpt (some p) then
         (if M = ['0'] then
           ">=".data ++ M ++ '.' :: m ++ ".0 <".data ++ M ++ '.' :: jsSuccStr (toNatDigits m) ++ ".0".data
         else
           ">=".data ++ M ++ '.' :: m ++ ".0 <".data ++ jsSuccStr (toNatDigits M) ++ ".0.0".data)
       else
         (if M = ['0'] then
           if m = ['0'] then
             ">=".data ++ M ++ '.' :: m ++ '.' :: p ++ " <".data ++
               M ++ '.' :: m ++ '.' :: jsSuccStr (toNatDigits p)
           else
             ">=".data ++ M ++ '.' :: m ++ '.' :: p ++ " <".data ++
               M ++ '.' :: jsSuccStr (toNatDigits m) ++ ".0".data
         else
           ">=".data ++ M ++ '.' :: m ++ '.' :: p ++ " <".data ++
             jsSuccStr (toNatDigits M) ++ ".0.0".data)) := rfl
  rw [hred, hxM, if_neg (by decide), hxm, if_neg (by decide), hxp, if_neg (by decide)]
  have hM0 := validNumRun_zero_iff hM hvM
  have hm0 := validNumRun_zero_iff hm hvm
  by_cases hMe : M = ['0']
  · rw [if_pos hMe]
    have hMn := hM0.mp hMe
    by_cases hme : m = ['0']
    · rw [if_pos hme]
      simp [specCaretNext, hMn, hm0.mp hme, jsSuccStr_small h53p]
    · rw [if_neg hme]
      have hmn : ¬toNatDigits m = 0 := fun hh => hme (hm0.mpr hh)
      simp [specCaretNext, hMn, hmn, jsSuccStr_small h53m]
  · rw [if_neg hMe]
    have hMn : ¬toNatDigits M = 0 := fun hh => hMe (hM0.mpr hh)
    simp [specCaretNext, hMn, jsSuccStr_small h53M]

theorem caretResult_withpre (rawv M m p pr2 : List Char)
    (hM : M.all isDigitC = true) (hvM : validNumRun M = true)
    (hm : m.all isDigitC = true) (hvm : validNumRun m = true)
    (hp : p.all isDigitC = true) (hvp : validNumRun p = true)
    (h53M : toNatDigits M < 2 ^ 53) (h53m : toNatDigits m < 2 ^ 53)
    (h53p : toNatDigits p < 2 ^ 53) :
    caretResult ⟨rawv, M, some m, some p, some pr2, none⟩ =
      ">=".data ++ M ++ '.' :: m ++ '.' :: p ++ '-' :: pr2 ++ " <".data ++
        specCaretNext M m p := by
  have hxM : isXOpt (some M) = false := isXOpt_digits hM (validNumRun_ne_nil hvM)
  have hxm : isXOpt (some m) = false := isXOpt_digits hm (validNumRun_ne_nil hvm)
  have hxp : isXOpt (some p) = false := isXOpt_digits hp (validNumRun_ne_nil hvp)
  have hred : caretResult ⟨rawv, M, some m, some p, some pr2, none⟩ =
      (if isXOpt (some M) then []
       else if isXOpt (some m) then
         ">=".data ++ M ++ ".0.0 <".data ++ jsSuccStr (toNatDigits M) ++ ".0.0".data
       else if isXOpt (some p) then
         (if M = ['0'] then
           ">=".data ++ M ++ '.' :: m ++ ".0 <".data ++ M ++ '.' :: jsSuccStr (toNatDigits m) ++ ".0".data
         else
           ">=".data ++ M ++ '.' :: m ++ ".0 <".data ++ jsSuccStr (toNatDigits M) ++ ".0.0".data)
       else
         (if M = ['0'] then
           if m = ['0'] then
             ">=".data ++ M ++ '.' :: m ++ '.' :: p ++ '-' :: pr2 ++ " <".data ++
               M ++ '.' :: m ++ '.' :: jsSuccStr (toNatDigits p)
           else
             ">=".data ++ M ++ '.' :: m ++ '.' :: p ++ '-' :: pr2 ++ " <".data ++
               M ++ '.' :: jsSuccStr (toNatDigits m) ++ ".0".data
         else
           ">=".data ++ M ++ '.' :: m ++ '.' :: p ++ '-' :: pr2 ++ " <".data ++
             jsSuccStr (toNatDigits M) ++ ".0.0".data)) := rfl
  rw [hred, hxM, if_neg (by decide), hxm, if_neg (by decide), hxp, if_neg (by decide)]
  have hM0 := validNumRun_zero_iff hM hvM
  have hm0 := validNumRun_zero_iff hm hvm
  by_cases hMe : M = ['0']
  · rw [if_pos hMe]
    have hMn := hM0.mp hMe
    by_cases hme : m = ['0']
    · rw [if_pos hme]
      simp [specCaretNext, hMn, hm0.mp hme, jsSuccStr_small h53p]
    · rw [if_neg hme]
      have hmn : ¬toNatDigits m = 0 := fun hh => hme (hm0.mpr hh)
      simp [specCaretNext, hMn, hmn, jsSuccStr_small h53m]
  · rw [if_neg hMe]
    have hMn : ¬toNatDigits M = 0 := fun hh => hMe (hM0.mpr hh)
    simp [specCaretNext, hMn, jsSuccStr_small h53M]

theorem caretResult_widen_none (rawv M : List Char) :
    caretResult ⟨rawv, M, none, none, none, none⟩ =
      (if isXOpt (some M) then []
       else ">=".data ++ M ++ ".0.0 <".data ++ jsSuccStr (toNatDigits M) ++ ".0.0".data) := rfl

theorem caretResult_widen_x (rawv M : List Char) :
    caretResult ⟨rawv, M, some ['x'], none, none, none⟩ =
      (if isXOpt (some M) then []
       else ">=".data ++ M ++ ".0.0 <".data ++ jsSuccStr (toNatDigits M) ++ ".0.0".data) := rfl

theorem replaceCaret_match {t : List Char} {x : XParts} (h : caretMatch t = some x) :
    replaceCaret t = caretResult x := by
  have hred : replaceCaret t =
      (match caretMatch t with
       | some x0 => caretResult x0
       | none => t) := rfl
  rw [hred, h]

/-- C4 counterexample: the caret upper bound is computed as
`String(+M + 1)` in double arithmetic, so for `M = 2^53` the increment is
lost (`2^53 + 1` rounds back to `2^53`, ties to even): the program rewrites
`^9007199254740992.2.3` to `>=9007199254740992.2.3 <9007199254740992.0.0`
(an unsatisfiable upper bound), while the spec's `NEXT`
(`specCaretNext`) increments the major to `9007199254740993`. -/
theorem C4_counterexample :
    replaceCaret "^9007199254740992.2.3".data =
      ">=9007199254740992.2.3 <9007199254740992.0.0".data ∧
    specCaretNext "9007199254740992".data "2".data "3".data =
      "9007199254740993.0.0".data := by
  exact ⟨by decide, by decide⟩

/-- C4 amended: on grammar-valid numeric components within the exact double
range (each below `2^53`), the caret rewrite sends the token `^M.m.p`
(optionally with a prerelease tail `-pr`) to the comparator pair
`>=M.m.p[-pr] <NEXT`, where `NEXT` (`specCaretNext`) bumps the first
non-zero-from-left field among major, minor, patch and zeroes the fields
after it; an `x` or missing trailing component widens the bound to
`>=M.0.0 <(M+1).0.0`; the claim's concrete rewrites hold, and consequently
`satisfies("1.2.3", "^1.2.0")` is `true` while `satisfies("2.0.0",
"^1.2.0")` is `false`.  (Beyond `2^53` the double arithmetic deviates: see
the counterexample.) -/
theorem C4_caret_rewrite :
    (∀ M m p : List Char,
       M.all isDigitC = true → validNumRun M = true →
       m.all isDigitC = true → validNumRun m = true →
       p.all isDigitC = true → validNumRun p = true →
       toNatDigits M < 2 ^ 53 → toNatDigits m < 2 ^ 53 → toNatDigits p < 2 ^ 53 →
       replaceCaret ('^' :: (M ++ '.' :: (m ++ '.' :: p))) =
         ">=".data ++ M ++ '.' :: m ++ '.' :: p ++ " <".data ++ specCaretNext M m p) ∧
    (∀ M m p pr : List Char, ∀ ids : List (List Char),
       M.all isDigitC = true → validNumRun M = true →
       m.all isDigitC = true → validNumRun m = true →
       p.all isDigitC = true → validNumRun p = true →
       toNatDigits M < 2 ^ 53 → toNatDigits m < 2 ^ 53 → toNatDigits p < 2 ^ 53 →
       parseDotted parsePreId pr = some (ids, []) → joinDot ids = pr →
       replaceCaret ('^' :: (M ++ '.' :: (m ++ '.' :: (p ++ '-' :: pr)))) =
         ">=".data ++ M ++ '.' :: m ++ '.' :: p ++ '-' :: pr ++ " <".data ++
           specCaretNext M m p) ∧
    (∀ M : List Char, M.all isDigitC = true → validNumRun M = true →
       toNatDigits M < 2 ^ 53 →
       replaceCaret ('^' :: M) =
         ">=".data ++ M ++ ".0.0 <".data ++ natRepr (toNatDigits M + 1) ++ ".0.0".data ∧
       replaceCaret ('^' :: (M ++ '.' :: ['x'])) =
         ">=".data ++ M ++ ".0.0 <".data ++ natRepr (toNatDigits M + 1) ++ ".0.0".data) ∧
    replaceCaret "^0.0.3".data = ">=0.0.3 <0.0.4".data ∧
    replaceCaret "^0.2.3".data = ">=0.2.3 <0.3.0".data ∧
    replaceCaret "^1.2.3".data = ">=1.2.3 <2.0.0".data ∧
    replaceCaret "^1.x".data = ">=1.0.0 <2.0.0".data ∧
    satisfiesE "1.2.3" "^1.2.0" false = .ok true ∧
    satisfiesE "2.0.0" "^1.2.0" false = .ok false := by
  refine ⟨?_, ?_, ?_, by decide, by decide, by decide, by decide, by decide, by decide⟩
  · intro M m p hM hvM hm hvm hp hvp h53M h53m h53p
    rw [replaceCaret_match
          (caretMatch_of_parse (xrangePlainParse_mmp M m p hM hvM hm hvm hp hvp))]
    exact caretResult_nopre _ M m p hM hvM hm hvm hp hvp h53M h53m h53p
  · intro M m p pr ids hM hvM hm hvm hp hvp h53M h53m h53p hpr hjoin
    rw [replaceCaret_match
          (caretMatch_of_parse
            (xrangePlainParse_mmp_pre M m p pr ids hM hvM hm hvm hp hvp hpr)),
        caretResult_withpre _ M m p (joinDot ids) hM hvM hm hvm hp hvp h53M h53m h53p,
        hjoin]
  · intro M hM hvM h53M
    have hxM : isXOpt (some M) = false := isXOpt_digits hM (validNumRun_ne_nil hvM)
    constructor
    · rw [replaceCaret_match (caretMatch_of_parse (xrangePlainParse_major M hM hvM)),
          caretResult_widen_none, hxM, if_neg (by decide), jsSuccStr_small h53M]
    · rw [replaceCaret_match (caretMatch_of_parse (xrangePlainParse_majorX M hM hvM)),
          caretResult_widen_x, hxM, if_neg (by decide), jsSuccStr_small h53M]

/-- Witness for C4 at `M = "1"`, `m = "2"`, `p = "3"`. -/
theorem C4_witness :
    replaceCaret ('^' :: (['1'] ++ '.' :: (['2'] ++ '.' :: ['3']))) =
      ">=".data ++ ['1'] ++ '.' :: ['2'] ++ '.' :: ['3'] ++ " <".data ++
        specCaretNext ['1'] ['2'] ['3'] ∧
    replaceCaret ('^' :: ['1']) =
      ">=".data ++ ['1'] ++ ".0.0 <".data ++ natRepr (toNatDigits ['1'] + 1) ++ ".0.0".data :=
  ⟨C4_caret_rewrite.1 ['1'] ['2'] ['3'] (by decide) (by decide) (by decide) (by decide)
      (by decide) (by decide) (by decide) (by decide) (by decide),
   (C4_caret_rewrite.2.2.1 ['1'] (by decide) (by decide) (by decide)).1⟩

end DenoSemVer
